import Mathlib

/-!
Verification development for the L-SystemTrees repository.

The development shallowly embeds the three pipeline stages of the plugin:
the context-sensitive stochastic rule engine (`LSystemGenerator.cpp` /
`LSystemTypes.h`), the 3D turtle interpreter (`TurtleInterpreter.cpp`), and
the mesh synthesizer (`TreeGeometry.cpp`).

Modelling conventions:
* `FString` is `List Char`; `TCHAR` is `Char`; the `'\0'` sentinel used for
  absent context is `Char.ofNat 0`.
* 32-bit integers are `Int` (no claim exercises 32-bit wraparound); the
  unsigned seed of `FRandomStream` is a `Nat` reduced `% 2^32` exactly where
  the hardware would wrap.
* `float` probability/width arithmetic is carried out in `ℚ`.  Every place a
  claim depends on a concrete comparison, the values involved are exactly
  representable in binary32 and far from rounding boundaries, so the
  rational model agrees with the float computation.
* Unreal's `FRandomStream` is embedded exactly: `MutateSeed` is the 32-bit
  LCG `s * 196314165 + 907633515`, and `GetFraction` builds a float in
  `[1,2)` by oring the top 23 mantissa bits, i.e. it returns
  `(s >>> 9) / 2^23` exactly.
* Ambient entropy (`FMath::Rand()`, used whenever a configured seed is `0`)
  is modelled by an explicit `ambient : Nat` parameter.
-/

namespace LSys

/-- The sentinel character the generator uses for an absent context slot. -/
def nullChar : Char := Char.ofNat 0

/-! ### FRandomStream (Unreal engine seeded random stream) -/

/-- 32-bit LCG step of `FRandomStream::MutateSeed`. -/
def mutateSeed (s : Nat) : Nat := (s * 196314165 + 907633515) % 2 ^ 32

/-- `FRandomStream::GetFraction`: mutate the seed, then return the float
whose mantissa is the top 23 bits of the new seed, minus one — exactly
`(s' >>> 9) / 2^23`.  Returns the drawn fraction and the new seed. -/
def getFraction (s : Nat) : ℚ × Nat :=
  let s2 := mutateSeed s
  (((s2 / 2 ^ 9 : Nat) : ℚ) / 2 ^ 23, s2)

/-- `FRandomStream::FRandRange (InMin, InMax) = InMin + (InMax-InMin)*GetFraction()`. -/
def fRandRange (lo hi : ℚ) (s : Nat) : ℚ × Nat :=
  let f := getFraction s
  (lo + (hi - lo) * f.1, f.2)

/-- `FRandomStream::RandHelper(A)`: `A > 0 ? TruncToInt(GetFraction()*A) : 0`.
The stream is mutated only when `A > 0`. -/
def randHelper (a : Int) (s : Nat) : Int × Nat :=
  if 0 < a then
    let f := getFraction s
    (⌊f.1 * (a : ℚ)⌋, f.2)
  else (0, s)

/-- `FRandomStream::RandRange(Min, Max) = Min + RandHelper(Max - Min + 1)`. -/
def randRangeInt (lo hi : Int) (s : Nat) : Int × Nat :=
  let r := randHelper (hi - lo + 1) s
  (lo + r.1, r.2)

/-- Seeding: `FRandomStream::Initialize(int32)` stores the seed cast to
uint32. -/
def initSeed (seed : Int) : Nat := (seed % 2 ^ 32).toNat

/-! ### FLSystemRule (`LSystemTypes.h`) -/

/-- One production rule, as in `FLSystemRule`.  String fields keep their
`FString` representation (`List Char`); probability is the `float` field in
`ℚ`. -/
structure FLSystemRule where
  leftContext : List Char
  predecessor : List Char
  rightContext : List Char
  successor : List Char
  probability : ℚ
deriving DecidableEq, Repr

/-- `FLSystemRule::IsValid`: predecessor exactly one symbol, successor
non-empty, probability in `[0,1]`, each context at most one symbol. -/
def FLSystemRule.IsValid (r : FLSystemRule) : Bool :=
  if r.predecessor.length ≠ 1 then false
  else if r.successor.length = 0 then false
  else if r.probability < 0 ∨ 1 < r.probability then false
  else if 1 < r.leftContext.length ∨ 1 < r.rightContext.length then false
  else true

/-- `FLSystemRule::GetPredecessorChar` (sentinel when empty). -/
def FLSystemRule.GetPredecessorChar (r : FLSystemRule) : Char :=
  r.predecessor.headD nullChar

/-- `FLSystemRule::GetLeftContextChar` (sentinel when empty). -/
def FLSystemRule.GetLeftContextChar (r : FLSystemRule) : Char :=
  r.leftContext.headD nullChar

/-- `FLSystemRule::GetRightContextChar` (sentinel when empty). -/
def FLSystemRule.GetRightContextChar (r : FLSystemRule) : Char :=
  r.rightContext.headD nullChar

/-- `FLSystemRule::IsContextSensitive`. -/
def FLSystemRule.IsContextSensitive (r : FLSystemRule) : Bool :=
  0 < r.leftContext.length ∨ 0 < r.rightContext.length

/-- `FLSystemRule::MatchesContext`: an empty context slot matches anything,
a filled one must equal the actual neighbour character. -/
def FLSystemRule.MatchesContext (r : FLSystemRule) (l rc : Char) : Bool :=
  if 0 < r.leftContext.length ∧ r.GetLeftContextChar ≠ l then false
  else if 0 < r.rightContext.length ∧ r.GetRightContextChar ≠ rc then false
  else true

/-- `FLSystemRule::GetContextSpecificity`: number of filled context slots. -/
def FLSystemRule.GetContextSpecificity (r : FLSystemRule) : Int :=
  (if 0 < r.leftContext.length then 1 else 0) +
    (if 0 < r.rightContext.length then 1 else 0)

/-! ### Generator configuration (`FLSystemConfig`) -/

/-- `FLSystemConfig` (timing/logging fields omitted; they do not influence
the generated string or the counted statistics). -/
structure FLSystemConfig where
  maxIterations : Int
  maxStringLength : Int
  randomSeed : Int
  bStoreHistory : Bool
deriving Repr

/-- Default `FLSystemConfig` constructor values. -/
def defaultConfig : FLSystemConfig :=
  { maxIterations := 10, maxStringLength := 100000, randomSeed := 0,
    bStoreHistory := true }

/-- `FMath::Clamp`: `X < Min ? Min : (X < Max ? X : Max)`. -/
def clampInt (x lo hi : Int) : Int :=
  if x < lo then lo else if x < hi then x else hi

/-! ### Rule management (`ULSystemGenerator::AddRule`, `BuildRuleLookup`) -/

/-- `ULSystemGenerator::AddRule`: an invalid rule is rejected (only a warning
is logged) and the rule collection is left unchanged. -/
def AddRule (rules : List FLSystemRule) (r : FLSystemRule) : List FLSystemRule :=
  if r.IsValid then rules ++ [r] else rules

/-- Stable insertion used to model `TArray::Sort` with the comparator
`A.GetContextSpecificity() > B.GetContextSpecificity()`: an element is
placed before the first strictly less specific one, so equal-specificity
rules keep their insertion order.  (`SelectRule` recomputes the maximal
specificity itself, so only the order among equally specific rules is ever
observable, and that order the stable model preserves.) -/
def insertBySpec (acc : List FLSystemRule) (r : FLSystemRule) : List FLSystemRule :=
  match acc with
  | [] => [r]
  | x :: xs =>
      if x.GetContextSpecificity < r.GetContextSpecificity then
        r :: x :: xs
      else x :: insertBySpec xs r

/-- Sort a per-symbol rule list by descending context specificity. -/
def sortBySpecDesc (l : List FLSystemRule) : List FLSystemRule :=
  l.foldl insertBySpec []

/-- `ULSystemGenerator::BuildRuleLookup`, observed through `Find`: the rules
stored for a symbol are the valid rules whose predecessor character equals
that symbol, in insertion order, sorted by descending specificity. -/
def ruleLookup (rules : List FLSystemRule) (c : Char) : List FLSystemRule :=
  sortBySpecDesc ((rules.filter fun r => r.IsValid).filter
    fun r => r.GetPredecessorChar = c)

/-! ### SelectRule (`ULSystemGenerator::SelectRule`) -/

/-- Loop body of the filtering loop of `SelectRule`: keep the
context-matching rules of maximal specificity seen so far (finding a
strictly more specific rule resets the collected array). -/
def specStep (l rc : Char) (acc : List FLSystemRule × Int) (r : FLSystemRule) :
    List FLSystemRule × Int :=
  if r.MatchesContext l rc then
    let s := r.GetContextSpecificity
    if acc.2 < s then ([r], s)
    else if s = acc.2 then (acc.1 ++ [r], acc.2)
    else acc
  else acc

/-- The filtering loop of `SelectRule` (`MaxSpecificity` starts at `-1`). -/
def filterMaxSpec (cands : List FLSystemRule) (l rc : Char) :
    List FLSystemRule × Int :=
  cands.foldl (specStep l rc) ([], -1)

/-- The cumulative-probability scan of `SelectRule`: return the first rule
whose running probability total strictly exceeds the drawn value. -/
def pickByCumulative (rv : ℚ) : ℚ → List FLSystemRule → Option FLSystemRule
  | _, [] => none
  | cum, r :: rest =>
      let cum2 := cum + r.probability
      if rv < cum2 then some r else pickByCumulative rv cum2 rest

/-- `ULSystemGenerator::SelectRule`.  Returns the selected rule (or `none`
for the identity production) together with the updated stream seed.  The
stream is consulted only when several equally specific rules match. -/
def SelectRule (lookup : Char → List FLSystemRule) (sym l rc : Char)
    (s : Nat) : Option FLSystemRule × Nat :=
  let rulesFor := lookup sym
  match (filterMaxSpec rulesFor l rc).1 with
  | [] => (none, s)
  | [r] => (some r, s)
  | m :: m2 :: ms =>
      let matching := m :: m2 :: ms
      let total := (matching.map FLSystemRule.probability).sum
      if total ≤ 0 then
        let d := randRangeInt 0 ((matching.length : Int) - 1) s
        (some (matching.getD d.1.toNat m), d.2)
      else
        let d := fRandRange 0 total s
        match pickByCumulative d.1 0 matching with
        | some r => (some r, d.2)
        | none => (some (matching.getLastD m), d.2)

/-! ### ApplyRules (`ULSystemGenerator::ApplyRules`) -/

/-- One pass of the character loop of `ApplyRules`.  `left` is the previous
input character (sentinel at position 0).  After each append the length cap
is checked: when the output exceeds `maxStringLength` it is truncated with
`LeftInline` and the scan of the remaining input stops. -/
def applyRulesGo (cfg : FLSystemConfig) (lookup : Char → List FLSystemRule) :
    Char → List Char → List Char → Nat → List Char × Nat
  | _, [], acc, s => (acc, s)
  | left, c :: rest, acc, s =>
      let rc := rest.headD nullChar
      let sel := SelectRule lookup c left rc s
      let acc2 := match sel.1 with
        | some r => acc ++ r.successor
        | none => acc ++ [c]
      if cfg.maxStringLength < (acc2.length : Int) then
        (acc2.take cfg.maxStringLength.toNat, sel.2)
      else applyRulesGo cfg lookup c rest acc2 sel.2

/-- `ULSystemGenerator::ApplyRules` (the statistics counters it increments
are not modelled; no claim reads them). -/
def ApplyRules (cfg : FLSystemConfig) (lookup : Char → List FLSystemRule)
    (input : List Char) (s : Nat) : List Char × Nat :=
  applyRulesGo cfg lookup nullChar input [] s

/-! ### Generation loop (`ULSystemGenerator::DoGeneration`) -/

/-- `ULSystemGenerator::CheckTermination` (checked before each iteration). -/
def CheckTermination (cfg : FLSystemConfig) (cancelRequested : Bool)
    (cur : List Char) (iteration : Nat) : Bool :=
  if cfg.maxIterations ≤ (iteration : Int) then true
  else if cfg.maxStringLength ≤ (cur.length : Int) then true
  else if cancelRequested then true
  else false

/-- `ULSystemGenerator::Validate`: non-empty axiom, at least one rule, and
every rule valid. -/
def Validate (rules : List FLSystemRule) (axiomStr : List Char) : Bool :=
  if axiomStr.length = 0 then false
  else if rules.length = 0 then false
  else rules.all FLSystemRule.IsValid

/-- Result of a generation run: the `FLSystemGenerationResult` fields a
claim inspects (`GeneratedString`, success flag, `Stats.TotalIterations`,
`IterationHistory`). -/
structure GenResult where
  success : Bool
  generatedString : List Char
  totalIterations : Nat
  history : List (List Char)
deriving DecidableEq, Repr

/-- The main generation loop of `DoGeneration`: run up to `fuel` more
iterations (`fuel` = clamped iteration count minus `i`).  `curIter` mirrors
`State.CurrentIteration`, which is set to `i + 1` after each `ApplyRules`
pass and is what `UpdateStatistics` later reports as `TotalIterations`.
The fixed-point check (`PreviousString == CurrentString`) runs after the
state update, so a fixed point still counts as a completed iteration. -/
def genLoop (cfg : FLSystemConfig) (lookup : Char → List FLSystemRule)
    (cancelRequested : Bool) :
    Nat → Nat → List Char → Nat → List (List Char) → Nat →
    List Char × Nat × List (List Char) × Nat
  | 0, _, cur, curIter, hist, s => (cur, curIter, hist, s)
  | fuel + 1, i, cur, curIter, hist, s =>
      if CheckTermination cfg cancelRequested cur i then (cur, curIter, hist, s)
      else
        let step := ApplyRules cfg lookup cur s
        let hist2 := if cfg.bStoreHistory then hist ++ [step.1] else hist
        if cur = step.1 then (step.1, i + 1, hist2, step.2)
        else genLoop cfg lookup cancelRequested fuel (i + 1) step.1 (i + 1) hist2 step.2

/-- `ULSystemGenerator::DoGeneration` given an already initialized stream
seed: validate, clamp the requested iterations to `[1, MaxIterations]`,
seed the history with the axiom, run the loop, and package the result. -/
def DoGenerationWith (rules : List FLSystemRule) (axiomStr : List Char)
    (iterations : Int) (cfg : FLSystemConfig) (cancelRequested : Bool)
    (s0 : Nat) : GenResult :=
  if Validate rules axiomStr then
    let iters := clampInt iterations 1 cfg.maxIterations
    let lookup := ruleLookup rules
    let hist0 : List (List Char) := if cfg.bStoreHistory then [axiomStr] else []
    let r := genLoop cfg lookup cancelRequested iters.toNat 0 axiomStr 0 hist0 s0
    if cancelRequested then
      { success := false, generatedString := [], totalIterations := 0, history := [] }
    else
      { success := true, generatedString := r.1, totalIterations := r.2.1,
        history := r.2.2.1 }
  else
    { success := false, generatedString := [], totalIterations := 0, history := [] }

/-- `DoGeneration` as called by the synchronous `Generate`: the stream is
re-initialized from `Config.RandomSeed`, or from ambient `FMath::Rand()`
entropy when the configured seed is `0`. -/
def DoGeneration (rules : List FLSystemRule) (axiomStr : List Char)
    (iterations : Int) (cfg : FLSystemConfig) (ambient : Int) : GenResult :=
  DoGenerationWith rules axiomStr iterations cfg false
    (if cfg.randomSeed ≠ 0 then initSeed cfg.randomSeed else initSeed ambient)

/-! ### Turtle interpreter (`TurtleInterpreter.cpp`)

The turtle's continuous state (position and the forward/left/up basis) is
built from normalized 3D float vectors; its exact values are irrational in
general.  No branch of the interpreter's control flow feeds a continuous
value back into a discrete decision: `ApplyTropism`, `ReorthogonalizeBasis`
and `RotateVector` only rewrite the basis vectors and never touch the
stream, the stack, the counters or the output lists, and the internal
conditionals of those helpers only choose between vector expressions.  The
embedding therefore carries the exact discrete projection of the machine —
width arithmetic, depth, the state stack, branch-skip tracking, the output
segment/leaf records and every random-stream draw in source order — and
omits the vector fields.  The struct fields follow their uses in
`TurtleInterpreter.cpp` (the copy of `LSystemTypes.h` in the snapshot
predates the interpreter and lacks the variation fields). -/

structure FTurtleConfig where
  defaultAngle : ℚ
  pitchAngle : ℚ
  rollAngle : ℚ
  stepLength : ℚ
  stepLengthVariation : ℚ
  initialWidth : ℚ
  widthFalloff : ℚ
  minWidth : ℚ
  tropismStrength : ℚ
  angleVariationMin : ℚ
  angleVariationMax : ℚ
  pitchVariationMin : ℚ
  pitchVariationMax : ℚ
  bRandomizePitchDirection : Bool
  pitchFlipProbability : ℚ
  branchProbability : ℚ
  initialRandomRoll : ℚ
  leafSize : ℚ × ℚ
  randomSeed : Int
deriving Repr

/-- Discrete projection of `FTurtleState` (position and basis omitted; see
the section comment).  `lastSegmentIndex` starts at `-1`, the spec's
"parentSegmentIndex (-1 if none)" sentinel. -/
structure FTurtleState where
  currentWidth : ℚ
  depth : Nat
  lastSegmentIndex : Int
deriving DecidableEq, Repr

/-- Discrete projection of an emitted `FBranchSegment` (positions and
direction omitted). -/
structure SegmentRec where
  startRadius : ℚ
  endRadius : ℚ
  depth : Nat
  parentSegmentIndex : Int
deriving DecidableEq, Repr

/-- Discrete projection of an emitted `FLeafData` (position and orientation
omitted; the rotation is the drawn jitter value). -/
structure LeafRec where
  size : ℚ × ℚ
  rotation : ℚ
  depth : Nat
deriving DecidableEq, Repr

/-- The whole interpreter object: current state, state stack (head = top),
branch-skip nesting counter, statistics and outputs, and the stream seed.
`skipLog` is ghost instrumentation recording each branch-skip decision
taken at an unskipped `[` (`true` = subtree skipped); it influences no
other field and exists only so theorems can name the decisions of a run. -/
structure TurtleMachine where
  currentState : FTurtleState
  stateStack : List FTurtleState
  skipBranchDepth : Nat
  maxDepthReached : Nat
  outputSegments : List SegmentRec
  outputLeaves : List LeafRec
  stream : Nat
  skipLog : List Bool
deriving Repr

/-- `UTurtleInterpreter::GetRandomAngleVariation`: returns `0` without
drawing when `AngleVariationMin >= AngleVariationMax`, otherwise draws
`FRandRange(Min, Max)`.  Only the stream effect is discrete. -/
def randAngleVariation (cfg : FTurtleConfig) (s : Nat) : Nat :=
  if cfg.angleVariationMin < cfg.angleVariationMax then
    (fRandRange cfg.angleVariationMin cfg.angleVariationMax s).2
  else s

/-- `UTurtleInterpreter::GetRandomPitchVariation` (stream effect). -/
def randPitchVariation (cfg : FTurtleConfig) (s : Nat) : Nat :=
  if cfg.pitchVariationMin < cfg.pitchVariationMax then
    (fRandRange cfg.pitchVariationMin cfg.pitchVariationMax s).2
  else s

/-- `UTurtleInterpreter::ShouldFlipPitch` draws `FRand` only when pitch
randomization is enabled (stream effect; the flip itself is continuous). -/
def shouldFlipDraw (cfg : FTurtleConfig) (s : Nat) : Nat :=
  if cfg.bRandomizePitchDirection then (getFraction s).2 else s

/-- `UTurtleInterpreter::HandleForward`: taper the width
(`max (w * 0.95) MinWidth`), draw the step-length variation when
configured, and emit a segment when drawing and the starting width is at
least `MinWidth`; the new segment's parent is the previous
`LastSegmentIndex`, which is then updated to the new segment's index. -/
def handleForward (cfg : FTurtleConfig) (bDraw : Bool) (m : TurtleMachine) :
    TurtleMachine :=
  let startWidth := m.currentState.currentWidth
  let endWidth := max (startWidth * (19 / 20)) cfg.minWidth
  let s1 := if 0 < cfg.stepLengthVariation then
      (fRandRange (-cfg.stepLengthVariation) cfg.stepLengthVariation m.stream).2
    else m.stream
  if bDraw ∧ cfg.minWidth ≤ startWidth then
    { m with
      currentState := { m.currentState with
        currentWidth := endWidth,
        lastSegmentIndex := (m.outputSegments.length : Int) },
      outputSegments := m.outputSegments ++
        [{ startRadius := startWidth, endRadius := endWidth,
           depth := m.currentState.depth,
           parentSegmentIndex := m.currentState.lastSegmentIndex }],
      stream := s1 }
  else
    { m with
      currentState := { m.currentState with currentWidth := endWidth },
      stream := s1 }

/-- `UTurtleInterpreter::HandleRotateYaw` (stream effect only). -/
def handleRotateYaw (cfg : FTurtleConfig) (m : TurtleMachine) : TurtleMachine :=
  { m with stream := randAngleVariation cfg m.stream }

/-- `UTurtleInterpreter::HandleRotatePitch`: the flip draw precedes the
pitch-variation draw, as in the source. -/
def handleRotatePitch (cfg : FTurtleConfig) (m : TurtleMachine) : TurtleMachine :=
  { m with stream := randPitchVariation cfg (shouldFlipDraw cfg m.stream) }

/-- `UTurtleInterpreter::HandleRotateRoll` (stream effect only). -/
def handleRotateRoll (cfg : FTurtleConfig) (m : TurtleMachine) : TurtleMachine :=
  { m with stream := randAngleVariation cfg m.stream }

/-- The push proper (second half of `HandlePushState`): save the state,
increment depth, apply the width falloff floored at `MinWidth`, track the
maximum depth. -/
def pushCore (cfg : FTurtleConfig) (m : TurtleMachine) : TurtleMachine :=
  { m with
    stateStack := m.currentState :: m.stateStack,
    currentState := { m.currentState with
      depth := m.currentState.depth + 1,
      currentWidth :=
        max (m.currentState.currentWidth * cfg.widthFalloff) cfg.minWidth },
    maxDepthReached := max m.maxDepthReached (m.currentState.depth + 1) }

/-- `UTurtleInterpreter::HandlePushState`: inside a skipped subtree only
the nesting counter grows; otherwise, when `BranchProbability < 1`, a
Bernoulli draw may enter skip mode instead of pushing. -/
def handlePushState (cfg : FTurtleConfig) (m : TurtleMachine) : TurtleMachine :=
  if 0 < m.skipBranchDepth then
    { m with skipBranchDepth := m.skipBranchDepth + 1 }
  else if cfg.branchProbability < 1 then
    let d := getFraction m.stream
    if cfg.branchProbability < d.1 then
      { m with
        skipBranchDepth := 1
        stream := d.2
        skipLog := m.skipLog ++ [true] }
    else pushCore cfg { m with stream := d.2, skipLog := m.skipLog ++ [false] }
  else pushCore cfg { m with skipLog := m.skipLog ++ [false] }

/-- `UTurtleInterpreter::HandlePopState`: decrement the skip counter in
skip mode; otherwise restore the top of the stack, or warn (no state
change) if the stack is empty. -/
def handlePopState (m : TurtleMachine) : TurtleMachine :=
  if 0 < m.skipBranchDepth then
    { m with skipBranchDepth := m.skipBranchDepth - 1 }
  else
    match m.stateStack with
    | [] => m
    | top :: rest => { m with currentState := top, stateStack := rest }

/-- `UTurtleInterpreter::HandlePlaceLeaf`: record a leaf at the current
depth with the configured size and a drawn rotation jitter in `±30°`. -/
def handlePlaceLeaf (cfg : FTurtleConfig) (m : TurtleMachine) : TurtleMachine :=
  let d := fRandRange (-30) 30 m.stream
  { m with
    outputLeaves := m.outputLeaves ++
      [{ size := cfg.leafSize, rotation := d.1, depth := m.currentState.depth }],
    stream := d.2 }

/-- `UTurtleInterpreter::ProcessSymbol`: in skip mode only brackets adjust
the nesting counter; otherwise dispatch on the symbol (`|` is a 180° yaw,
placeholder letters and unknown symbols are ignored). -/
def processSymbol (cfg : FTurtleConfig) (m : TurtleMachine) (c : Char) :
    TurtleMachine :=
  if 0 < m.skipBranchDepth then
    if c = '[' then { m with skipBranchDepth := m.skipBranchDepth + 1 }
    else if c = ']' then { m with skipBranchDepth := m.skipBranchDepth - 1 }
    else m
  else if c = 'F' then handleForward cfg true m
  else if c = 'f' then handleForward cfg false m
  else if c = '+' ∨ c = '-' then handleRotateYaw cfg m
  else if c = '^' ∨ c = '&' then handleRotatePitch cfg m
  else if c = '\\' ∨ c = '/' then handleRotateRoll cfg m
  else if c = '|' then handleRotateYaw cfg m
  else if c = '[' then handlePushState cfg m
  else if c = ']' then handlePopState m
  else if c = 'L' then handlePlaceLeaf cfg m
  else m

/-- `Reset` followed by `InitializeState`: fresh state at depth `0` with
the initial width; the optional initial random roll draws from the stream
state left over from before the call (in the source the stream is
re-seeded only afterwards, inside `InterpretString`). -/
def initMachine (cfg : FTurtleConfig) (priorStream : Nat) : TurtleMachine :=
  { currentState :=
      { currentWidth := cfg.initialWidth, depth := 0, lastSegmentIndex := -1 },
    stateStack := [],
    skipBranchDepth := 0,
    maxDepthReached := 0,
    outputSegments := [],
    outputLeaves := [],
    stream := if 0 < cfg.initialRandomRoll then
        (fRandRange 0 cfg.initialRandomRoll priorStream).2
      else priorStream,
    skipLog := [] }

/-- `UTurtleInterpreter::InterpretString`: reset and initialize, re-seed
the stream (ambient entropy when the configured seed is `0`), then process
every symbol left to right. -/
def InterpretString (cfg : FTurtleConfig) (input : List Char)
    (priorStream : Nat) (ambient : Int) : TurtleMachine :=
  let m0 := initMachine cfg priorStream
  let m1 := { m0 with
    stream := if cfg.randomSeed ≠ 0 then initSeed cfg.randomSeed
      else initSeed ambient }
  input.foldl (processSymbol cfg) m1

/-- Specification-side recount for the branch/pop balance property
(written from the spec's words, to be compared with the machine):  walk the
symbols with the run's recorded skip decisions, a skip-nesting counter and
a bracket-nesting counter, and return the number of `L` symbols seen
outside skipped subtrees, the maximum nesting level opened by unskipped
brackets (each unskipped non-skip-starting `[` opens a level, the matching
`]` closes it — on bracket-balanced strings exactly the nesting depth of
unskipped `[`/`]` pairs), and the unconsumed decisions. -/
def leafDepthWalk : List Char → List Bool → Nat → Nat → Nat × Nat × List Bool
  | [], ds, _, _ => (0, 0, ds)
  | c :: rest, ds, skip, nest =>
      if 0 < skip then
        if c = '[' then leafDepthWalk rest ds (skip + 1) nest
        else if c = ']' then leafDepthWalk rest ds (skip - 1) nest
        else leafDepthWalk rest ds skip nest
      else if c = '[' then
        match ds with
        | true :: ds2 => leafDepthWalk rest ds2 1 nest
        | false :: ds2 =>
            let r := leafDepthWalk rest ds2 0 (nest + 1)
            (r.1, max (nest + 1) r.2.1, r.2.2)
        | [] =>
            let r := leafDepthWalk rest [] 0 (nest + 1)
            (r.1, max (nest + 1) r.2.1, r.2.2)
      else if c = ']' then leafDepthWalk rest ds skip (nest - 1)
      else if c = 'L' then
        let r := leafDepthWalk rest ds skip nest
        (r.1 + 1, r.2)
      else leafDepthWalk rest ds skip nest

/-- Well-formedness of the turtle's saved-state stack: every saved state
records the depth at which it was pushed, which equals the number of
states below it.  Together with `depth = stack length` for the current
state this is the invariant that makes popping a saved state equivalent
to decrementing the nesting counter. -/
def StackOK : List FTurtleState → Prop
  | [] => True
  | t :: rest => t.depth = rest.length ∧ StackOK rest

/-! ### Mesh synthesizer (`TreeGeometry.cpp`)

Ring and leaf-quad vertex positions are real-valued expressions in
`cos`/`sin` and normalized vectors; no claim inspects a coordinate, so a
mesh vertex is embedded as the exact record of construction parameters the
source feeds into those expressions (two vertex slots are equal exactly
when the source would compute them from identical data).  The segment
length `FVector::Dist` is a square root; the builder takes the length
function as a parameter (`segLen`), used — as in the source — only for the
UV `V` coordinate, while the degeneracy test compares the squared length
against `KINDA_SMALL_NUMBER` squared, which is exact. -/

/-- Exact rational 3D vector (input coordinate data). -/
abbrev V3 := ℚ × ℚ × ℚ

/-- `FBranchSegment` as consumed by the mesh synthesizer. -/
structure FBranchSegment where
  startPosition : V3
  endPosition : V3
  startRadius : ℚ
  endRadius : ℚ
  direction : V3
  depth : Int
  parentSegmentIndex : Int
deriving DecidableEq, Repr

/-- `FLeafData` as consumed by the mesh synthesizer. -/
structure FLeafData where
  position : V3
  normal : V3
  upDirection : V3
  size : ℚ × ℚ
  rotation : ℚ
  depth : Int
deriving DecidableEq, Repr

/-- `FTreeLODLevel`. -/
structure FTreeLODLevel where
  radialSegments : Int
  screenSize : ℚ
  bIncludeLeaves : Bool
deriving DecidableEq, Repr

/-- Squared length of a segment (`GetLength()` squared, exact). -/
def lengthSq (seg : FBranchSegment) : ℚ :=
  (seg.endPosition.1 - seg.startPosition.1) ^ 2 +
    (seg.endPosition.2.1 - seg.startPosition.2.1) ^ 2 +
    (seg.endPosition.2.2 - seg.startPosition.2.2) ^ 2

/-- `KINDA_SMALL_NUMBER` (`1e-4`) squared, for the exact degeneracy test
`GetLength() < KINDA_SMALL_NUMBER`. -/
def kindaSmallSq : ℚ := 1 / 100000000

/-- `FVector2D::IsNearlyZero` with the default `KINDA_SMALL_NUMBER`
tolerance. -/
def isNearlyZero2D (v : ℚ × ℚ) : Bool :=
  |v.1| ≤ 1 / 10000 ∧ |v.2| ≤ 1 / 10000

/-- Construction record of one mesh vertex: a ring vertex is determined by
the ring center, axis direction, radius, its index `i` of `n`, and the UV
`V` value; a leaf-quad corner by the leaf record, the resolved size
(after the `DefaultLeafSize` fallback) and the corner index. -/
inductive MeshVertex
  | ring (center : V3) (direction : V3) (radius : ℚ) (i n : Nat) (v : ℚ)
  | leafCorner (leaf : FLeafData) (size : ℚ × ℚ) (k : Nat)
deriving DecidableEq, Repr

/-- Construction record of one vertex normal. -/
inductive MeshNormal
  | ringOut (direction : V3) (i n : Nat)
  | leafN (normal : V3)
deriving DecidableEq, Repr

/-- Vertex colors used by the builder (white bark, fixed leaf green). -/
inductive VColor
  | white
  | leafGreen
deriving DecidableEq, Repr

/-- Construction record of a tangent: `CalculateTangents` derives each
tangent from the vertex normal alone. -/
inductive MeshTangent
  | perpOf (n : MeshNormal)
deriving DecidableEq, Repr

/-- `FTreeMeshData`. -/
structure FTreeMeshData where
  vertices : List MeshVertex
  triangles : List Nat
  normals : List MeshNormal
  uvs : List (ℚ × ℚ)
  vertexColors : List VColor
  tangents : List MeshTangent
  branchVertexCount : Nat
  branchTriangleCount : Nat
deriving DecidableEq, Repr

/-- Empty mesh (`ResetMeshData`). -/
def emptyMesh : FTreeMeshData :=
  { vertices := [], triangles := [], normals := [], uvs := [],
    vertexColors := [], tangents := [], branchVertexCount := 0,
    branchTriangleCount := 0 }

/-- `UTreeGeometry::GenerateRing`: append `numSegments` ring vertices with
outward normals, `U = i / numSegments` and the given `V`; return the index
of the first vertex of the ring. -/
def GenerateRing (mesh : FTreeMeshData) (center direction : V3) (radius : ℚ)
    (numSegments : Nat) (v : ℚ) : Nat × FTreeMeshData :=
  (mesh.vertices.length,
   { mesh with
     vertices := mesh.vertices ++ (List.range numSegments).map
       (fun i => MeshVertex.ring center direction radius i numSegments v),
     normals := mesh.normals ++ (List.range numSegments).map
       (fun i => MeshNormal.ringOut direction i numSegments),
     uvs := mesh.uvs ++ (List.range numSegments).map
       (fun i => ((i : ℚ) / (numSegments : ℚ), v)),
     vertexColors := mesh.vertexColors ++
       List.replicate numSegments VColor.white })

/-- `UTreeGeometry::ConnectRings`: for each radial quad append the two
triangles `A-C-B` and `B-C-D`. -/
def ConnectRings (mesh : FTreeMeshData)
    (startRingIndex endRingIndex numSegments : Nat) : FTreeMeshData :=
  { mesh with
    triangles := mesh.triangles ++ ((List.range numSegments).map fun i =>
      [startRingIndex + i, endRingIndex + i,
       startRingIndex + (i + 1) % numSegments,
       startRingIndex + (i + 1) % numSegments, endRingIndex + i,
       endRingIndex + (i + 1) % numSegments]).flatten }

/-- `TMap<int32,int32>::Find` over the association list of segment end
rings. -/
def findAssoc : List (Nat × Nat) → Nat → Option Nat
  | [], _ => none
  | (k, v) :: rest, key => if k = key then some v else findAssoc rest key

/-- Builder state threaded through the branch loop of `GenerateMesh`:
the mesh, `SegmentEndRingIndices`, `CurrentVCoordinate`, and a ghost trace
(`ringPairs`) recording per segment the start/end ring indices its
triangles use (`none` for a skipped zero-length segment); the trace
influences nothing. -/
structure GeomState where
  mesh : FTreeMeshData
  segmentEndRingIndices : List (Nat × Nat)
  currentV : ℚ
  ringPairs : List (Option (Nat × Nat))
deriving Repr

/-- `UTreeGeometry::GenerateBranchCylinderConnected`: skip zero-length
segments; reuse the parent's end ring as the start ring when the parent is
recorded, otherwise generate a fresh start ring; always generate the end
ring, record it for children, and connect the two rings. -/
def GenerateBranchCylinderConnected (segLen : FBranchSegment → ℚ)
    (barkUVTiling : ℚ) (radialSegments : Nat) (st : GeomState)
    (seg : FBranchSegment) (segmentIndex : Nat) : GeomState :=
  if lengthSq seg < kindaSmallSq then
    { st with ringPairs := st.ringPairs ++ [none] }
  else
    let startV := st.currentV
    let endV := startV + segLen seg * barkUVTiling / 100
    let startRes : Nat × FTreeMeshData :=
      if 0 ≤ seg.parentSegmentIndex then
        match findAssoc st.segmentEndRingIndices seg.parentSegmentIndex.toNat with
        | some parentEnd => (parentEnd, st.mesh)
        | none => GenerateRing st.mesh seg.startPosition seg.direction
            seg.startRadius radialSegments startV
      else
        GenerateRing st.mesh seg.startPosition seg.direction seg.startRadius
          radialSegments startV
    let endRes := GenerateRing startRes.2 seg.endPosition seg.direction
      seg.endRadius radialSegments endV
    { mesh := ConnectRings endRes.2 startRes.1 endRes.1 radialSegments,
      segmentEndRingIndices :=
        st.segmentEndRingIndices ++ [(segmentIndex, endRes.1)],
      currentV := endV,
      ringPairs := st.ringPairs ++ [some (startRes.1, endRes.1)] }

/-- The indexed `for` loop over the segment array in `GenerateMesh`. -/
def branchLoop (segLen : FBranchSegment → ℚ) (barkUVTiling : ℚ)
    (radialSegments : Nat) :
    Nat → List FBranchSegment → GeomState → GeomState
  | _, [], st => st
  | i, seg :: rest, st =>
      branchLoop segLen barkUVTiling radialSegments (i + 1) rest
        (GenerateBranchCylinderConnected segLen barkUVTiling radialSegments
          st seg i)

/-- `UTreeGeometry::GenerateLeafQuad`: resolve the size fallback, append
the four corners (descriptor form) with the leaf normal, the fixed UVs and
the leaf color, and append the front-facing pair `0-1-2`, `0-2-3` and the
back-facing pair `2-1-0`, `3-2-0`. -/
def GenerateLeafQuad (defaultLeafSize : ℚ × ℚ) (mesh : FTreeMeshData)
    (leaf : FLeafData) : FTreeMeshData :=
  let startIndex := mesh.vertices.length
  let size := if isNearlyZero2D leaf.size then defaultLeafSize else leaf.size
  { mesh with
    vertices := mesh.vertices ++ (List.range 4).map
      (fun k => MeshVertex.leafCorner leaf size k),
    normals := mesh.normals ++ (List.range 4).map
      (fun _ => MeshNormal.leafN leaf.normal),
    uvs := mesh.uvs ++ [(0, 1), (1, 1), (1, 0), (0, 0)],
    vertexColors := mesh.vertexColors ++ List.replicate 4 VColor.leafGreen,
    triangles := mesh.triangles ++
      [startIndex, startIndex + 1, startIndex + 2,
       startIndex, startIndex + 2, startIndex + 3,
       startIndex + 2, startIndex + 1, startIndex,
       startIndex + 3, startIndex + 2, startIndex] }

/-- `UTreeGeometry::GenerateMesh` together with the ghost ring trace:
clamp the radial segment count to `[3, 32]`, run the branch loop, record
the branch vertex/triangle counts, optionally append the leaf quads, and
derive per-vertex tangents from the normals. -/
def GenerateMeshFull (segLen : FBranchSegment → ℚ) (barkUVTiling : ℚ)
    (defaultLeafSize : ℚ × ℚ) (segments : List FBranchSegment)
    (leaves : List FLeafData) (radialSegments : Int) (bIncludeLeaves : Bool) :
    FTreeMeshData × List (Option (Nat × Nat)) :=
  let n := (clampInt radialSegments 3 32).toNat
  let st0 : GeomState :=
    { mesh := emptyMesh, segmentEndRingIndices := [], currentV := 0,
      ringPairs := [] }
  let st1 := branchLoop segLen barkUVTiling n 0 segments st0
  let meshB := { st1.mesh with
    branchVertexCount := st1.mesh.vertices.length,
    branchTriangleCount := st1.mesh.triangles.length / 3 }
  let meshL := if bIncludeLeaves then
      leaves.foldl (GenerateLeafQuad defaultLeafSize) meshB
    else meshB
  ({ meshL with tangents := meshL.normals.map MeshTangent.perpOf },
   st1.ringPairs)

/-- `UTreeGeometry::GenerateMesh` (the mesh alone). -/
def GenerateMesh (segLen : FBranchSegment → ℚ) (barkUVTiling : ℚ)
    (defaultLeafSize : ℚ × ℚ) (segments : List FBranchSegment)
    (leaves : List FLeafData) (radialSegments : Int) (bIncludeLeaves : Bool) :
    FTreeMeshData :=
  (GenerateMeshFull segLen barkUVTiling defaultLeafSize segments leaves
    radialSegments bIncludeLeaves).1

/-- `UTreeGeometry::GenerateMeshLODs`: one `GenerateMesh` per configured
LOD level, or a single default (8 radial segments, leaves on) when none is
configured. -/
def GenerateMeshLODs (segLen : FBranchSegment → ℚ) (barkUVTiling : ℚ)
    (defaultLeafSize : ℚ × ℚ) (segments : List FBranchSegment)
    (leaves : List FLeafData) (lodLevels : List FTreeLODLevel) :
    List FTreeMeshData :=
  if lodLevels.length = 0 then
    [GenerateMesh segLen barkUVTiling defaultLeafSize segments leaves 8 true]
  else
    lodLevels.map fun lod =>
      GenerateMesh segLen barkUVTiling defaultLeafSize segments leaves
        lod.radialSegments lod.bIncludeLeaves

/-- Expected index block of one leaf quad starting at vertex `s`
(front-facing pair `0-1-2`, `0-2-3`; back-facing pair `2-1-0`, `3-2-0`). -/
def leafQuadIndices (s : Nat) : List Nat :=
  [s, s + 1, s + 2, s, s + 2, s + 3, s + 2, s + 1, s, s + 3, s + 2, s]

/-- Expected triangle index stream of all leaf quads, placed after the
branch vertices. -/
def leafTriangleBlocks (base : Nat) (numLeaves : Nat) : List Nat :=
  ((List.range numLeaves).map fun k => leafQuadIndices (base + 4 * k)).flatten

/-! ### Concrete instances used by the claims -/

/-- Context-free rule `B -> Y`. -/
def ruleBY : FLSystemRule :=
  { leftContext := [], predecessor := ['B'], rightContext := [],
    successor := ['Y'], probability := 1 }

/-- Context rule `A < B > C -> X`. -/
def ruleABCX : FLSystemRule :=
  { leftContext := ['A'], predecessor := ['B'], rightContext := ['C'],
    successor := ['X'], probability := 1 }

/-- Algae rule `A -> AB`. -/
def ruleAAB : FLSystemRule :=
  { leftContext := [], predecessor := ['A'], rightContext := [],
    successor := ['A', 'B'], probability := 1 }

/-- Algae rule `B -> A`. -/
def ruleBA : FLSystemRule :=
  { leftContext := [], predecessor := ['B'], rightContext := [],
    successor := ['A'], probability := 1 }

/-- Doubling rule `F -> FF`. -/
def ruleFFF : FLSystemRule :=
  { leftContext := [], predecessor := ['F'], rightContext := [],
    successor := ['F', 'F'], probability := 1 }

/-- Stochastic rule `A -> B (0.5)`. -/
def ruleABhalf : FLSystemRule :=
  { leftContext := [], predecessor := ['A'], rightContext := [],
    successor := ['B'], probability := 1 / 2 }

/-- Stochastic rule `A -> C (0.5)`. -/
def ruleAChalf : FLSystemRule :=
  { leftContext := [], predecessor := ['A'], rightContext := [],
    successor := ['C'], probability := 1 / 2 }

/-- Identity rule `A -> A`. -/
def ruleAA : FLSystemRule :=
  { leftContext := [], predecessor := ['A'], rightContext := [],
    successor := ['A'], probability := 1 }

/-- A malformed rule: probability `2` is out of range. -/
def badProbRule : FLSystemRule :=
  { leftContext := [], predecessor := ['A'], rightContext := [],
    successor := ['A'], probability := 2 }

/-- Config with `maxStringLength = 50`. -/
def cfgLen50 : FLSystemConfig := { defaultConfig with maxStringLength := 50 }

/-- Config with `maxIterations = 3`. -/
def cfgIter3 : FLSystemConfig := { defaultConfig with maxIterations := 3 }

/-- Config with a fixed nonzero seed. -/
def cfgSeed1 : FLSystemConfig := { defaultConfig with randomSeed := 1 }

/-- A turtle configuration with no variation draws and certain branching,
used for concrete turtle runs. -/
def plainTurtleConfig : FTurtleConfig :=
  { defaultAngle := 25, pitchAngle := 25, rollAngle := 25, stepLength := 10,
    stepLengthVariation := 0, initialWidth := 5, widthFalloff := 7 / 10,
    minWidth := 1 / 2, tropismStrength := 1 / 10, angleVariationMin := 0,
    angleVariationMax := 0, pitchVariationMin := 0, pitchVariationMax := 0,
    bRandomizePitchDirection := false, pitchFlipProbability := 0,
    branchProbability := 1, initialRandomRoll := 0, leafSize := (10, 15),
    randomSeed := 1 }

/-- A turtle configuration that skips every branch
(`BranchProbability = 0`, so any draw below 1 triggers a skip unless the
drawn fraction is exactly 0). -/
def skipTurtleConfig : FTurtleConfig :=
  { plainTurtleConfig with branchProbability := 0 }

/-- A concrete vertical unit segment with no parent. -/
def segRoot : FBranchSegment :=
  { startPosition := (0, 0, 0), endPosition := (0, 0, 10), startRadius := 5,
    endRadius := 4, direction := (0, 0, 1), depth := 0,
    parentSegmentIndex := -1 }

/-- A concrete child segment whose parent is segment `0`. -/
def segChild : FBranchSegment :=
  { startPosition := (0, 0, 10), endPosition := (0, 5, 18), startRadius := 4,
    endRadius := 3, direction := (0, 1, 1), depth := 1,
    parentSegmentIndex := 0 }

/-- A concrete leaf. -/
def leafOne : FLeafData :=
  { position := (0, 5, 18), normal := (0, 1, 1), upDirection := (0, 0, 1),
    size := (10, 15), rotation := 12, depth := 1 }

/-- A constant stand-in for the Euclidean length function in concrete
geometry runs. -/
def segLenTen : FBranchSegment → ℚ := fun _ => 10

/-! ### Basic lemmas about rule lookup and selection -/

lemma mem_insertBySpec {x r : FLSystemRule} :
    ∀ {acc : List FLSystemRule}, x ∈ insertBySpec acc r → x = r ∨ x ∈ acc := by
  intro acc
  induction acc with
  | nil => intro h; simpa [insertBySpec] using h
  | cons a t ih =>
      intro h
      simp only [insertBySpec] at h
      split at h
      · rcases List.mem_cons.1 h with h | h
        · exact Or.inl h
        · exact Or.inr h
      · rcases List.mem_cons.1 h with h | h
        · exact Or.inr (by simp [h])
        · rcases ih h with h2 | h2
          · exact Or.inl h2
          · exact Or.inr (List.mem_cons_of_mem _ h2)

lemma mem_sortBySpecDesc {x : FLSystemRule} {l : List FLSystemRule}
    (h : x ∈ sortBySpecDesc l) : x ∈ l := by
  have key : ∀ (l2 acc : List FLSystemRule),
      x ∈ l2.foldl insertBySpec acc → x ∈ acc ∨ x ∈ l2 := by
    intro l2
    induction l2 with
    | nil => intro acc h2; exact Or.inl h2
    | cons a t ih =>
        intro acc h2
        rcases ih _ h2 with h3 | h3
        · rcases mem_insertBySpec h3 with h4 | h4
          · exact Or.inr (by simp [h4])
          · exact Or.inl h4
        · exact Or.inr (List.mem_cons_of_mem _ h3)
  rcases key l [] h with h2 | h2
  · cases h2
  · exact h2

lemma ruleLookup_mem {rules : List FLSystemRule} {c : Char} {r : FLSystemRule}
    (h : r ∈ ruleLookup rules c) :
    r ∈ rules ∧ r.IsValid = true ∧ r.GetPredecessorChar = c := by
  have h2 := mem_sortBySpecDesc h
  simp only [List.mem_filter] at h2
  exact ⟨h2.1.1, h2.1.2, by simpa using h2.2⟩

lemma pickByCumulative_mem {rv : ℚ} :
    ∀ {cum : ℚ} {l : List FLSystemRule} {r : FLSystemRule},
      pickByCumulative rv cum l = some r → r ∈ l := by
  intro cum l
  induction l generalizing cum with
  | nil => intro r h; simp [pickByCumulative] at h
  | cons a t ih =>
      intro r h
      simp only [pickByCumulative] at h
      split at h
      · simp_all
      · exact List.mem_cons_of_mem _ (ih h)

lemma list_getD_mem {α : Type} :
    ∀ (l : List α) (n : Nat) (d : α), l.getD n d ∈ l ∨ l.getD n d = d := by
  intro l
  induction l with
  | nil => intro n d; simp
  | cons a t ih =>
      intro n d
      cases n with
      | zero => simp
      | succ m =>
          rcases ih m d with h | h
          · exact Or.inl (List.mem_cons_of_mem _ (by simpa using h))
          · exact Or.inr (by simpa using h)

lemma list_getLastD_mem_cons {α : Type} (l : List α) (d : α) :
    (d :: l).getLastD d ∈ d :: l := by
  rw [List.getLastD_cons]
  exact List.getLastD_mem_cons l d

/-- Invariant of the `SelectRule` filtering loop: starting from an
accumulator whose entries all match and have specificity exactly `mx`
(with `mx = -1` forcing an empty accumulator), the loop returns matching
rules of exactly the final maximal specificity, that specificity only
grows, every matching candidate is bounded by it, collected rules come
from the accumulator or the candidates, and a matching candidate
guarantees a non-empty result. -/
lemma specFold_inv (l rc : Char) :
    ∀ (cands acc : List FLSystemRule) (mx : Int),
      (∀ r ∈ acc, r.MatchesContext l rc = true ∧ r.GetContextSpecificity = mx) →
      (acc = [] → mx = -1) →
      (∀ r ∈ (cands.foldl (specStep l rc) (acc, mx)).1,
          r.MatchesContext l rc = true ∧
          r.GetContextSpecificity = (cands.foldl (specStep l rc) (acc, mx)).2) ∧
      mx ≤ (cands.foldl (specStep l rc) (acc, mx)).2 ∧
      (∀ r ∈ cands, r.MatchesContext l rc = true →
          r.GetContextSpecificity ≤ (cands.foldl (specStep l rc) (acc, mx)).2) ∧
      (∀ r ∈ (cands.foldl (specStep l rc) (acc, mx)).1, r ∈ acc ∨ r ∈ cands) ∧
      ((cands.foldl (specStep l rc) (acc, mx)).1 = [] →
          (cands.foldl (specStep l rc) (acc, mx)).2 = -1) := by
  intro cands
  induction cands with
  | nil =>
      intro acc mx hacc hemp
      refine ⟨by simpa using hacc, le_refl _, by simp, by simp, by simpa using hemp⟩
  | cons c rest ih =>
      intro acc mx hacc hemp
      simp only [List.foldl_cons]
      by_cases hm : c.MatchesContext l rc = true
      · by_cases hlt : mx < c.GetContextSpecificity
        · have hstep : specStep l rc (acc, mx) c =
              ([c], c.GetContextSpecificity) := by
            simp [specStep, hm, hlt]
          rw [hstep]
          obtain ⟨i1, i2, i3, i4, i5⟩ := ih [c] c.GetContextSpecificity
            (by intro r hr; simp at hr; simp [hr, hm]) (by simp)
          refine ⟨i1, le_trans (le_of_lt hlt) i2, ?_, ?_, i5⟩
          · intro r hr hmr
            rcases List.mem_cons.1 hr with hr | hr
            · subst hr; exact i2
            · exact i3 r hr hmr
          · intro r hr
            rcases i4 r hr with h4 | h4
            · simp at h4; simp [h4]
            · exact Or.inr (List.mem_cons_of_mem _ h4)
        · by_cases heq : c.GetContextSpecificity = mx
          · have hstep : specStep l rc (acc, mx) c = (acc ++ [c], mx) := by
              simp [specStep, hm, hlt, heq]
            rw [hstep]
            obtain ⟨i1, i2, i3, i4, i5⟩ := ih (acc ++ [c]) mx
              (by
                intro r hr
                rcases List.mem_append.1 hr with hr | hr
                · exact hacc r hr
                · simp at hr; simp [hr, hm, heq])
              (by simp)
            refine ⟨i1, i2, ?_, ?_, i5⟩
            · intro r hr hmr
              rcases List.mem_cons.1 hr with hr | hr
              · subst hr; rw [heq]; exact i2
              · exact i3 r hr hmr
            · intro r hr
              rcases i4 r hr with h4 | h4
              · rcases List.mem_append.1 h4 with h5 | h5
                · exact Or.inl h5
                · simp at h5; simp [h5]
              · exact Or.inr (List.mem_cons_of_mem _ h4)
          · have hstep : specStep l rc (acc, mx) c = (acc, mx) := by
              simp [specStep, hm, hlt, heq]
            rw [hstep]
            obtain ⟨i1, i2, i3, i4, i5⟩ := ih acc mx hacc hemp
            refine ⟨i1, i2, ?_, ?_, i5⟩
            · intro r hr hmr
              rcases List.mem_cons.1 hr with hr | hr
              · subst hr
                exact le_trans (le_of_not_lt hlt) i2
              · exact i3 r hr hmr
            · intro r hr
              rcases i4 r hr with h4 | h4
              · exact Or.inl h4
              · exact Or.inr (List.mem_cons_of_mem _ h4)
      · have hstep : specStep l rc (acc, mx) c = (acc, mx) := by
          simp [specStep, hm]
        rw [hstep]
        obtain ⟨i1, i2, i3, i4, i5⟩ := ih acc mx hacc hemp
        refine ⟨i1, i2, ?_, ?_, i5⟩
        · intro r hr hmr
          rcases List.mem_cons.1 hr with hr | hr
          · subst hr; exact absurd hmr hm
          · exact i3 r hr hmr
        · intro r hr
          rcases i4 r hr with h4 | h4
          · exact Or.inl h4
          · exact Or.inr (List.mem_cons_of_mem _ h4)

/-- Every rule collected by `filterMaxSpec` matches the context, has the
recorded maximal specificity, and comes from the candidate list; the
recorded specificity bounds every matching candidate. -/
lemma filterMaxSpec_spec (cands : List FLSystemRule) (l rc : Char) :
    (∀ r ∈ (filterMaxSpec cands l rc).1,
        r.MatchesContext l rc = true ∧
        r.GetContextSpecificity = (filterMaxSpec cands l rc).2) ∧
    (∀ r ∈ cands, r.MatchesContext l rc = true →
        r.GetContextSpecificity ≤ (filterMaxSpec cands l rc).2) ∧
    (∀ r ∈ (filterMaxSpec cands l rc).1, r ∈ cands) := by
  obtain ⟨i1, _, i3, i4, _⟩ :=
    specFold_inv l rc cands [] (-1) (by simp) (by simp)
  refine ⟨i1, i3, ?_⟩
  intro r hr
  rcases i4 r hr with h | h
  · cases h
  · exact h

/-- Every rule returned by `SelectRule` belongs to the max-specificity
filtered list. -/
lemma SelectRule_some_mem {lookup : Char → List FLSystemRule}
    {sym l rc : Char} {s : Nat} {ru : FLSystemRule} {s2 : Nat}
    (h : SelectRule lookup sym l rc s = (some ru, s2)) :
    ru ∈ (filterMaxSpec (lookup sym) l rc).1 := by
  unfold SelectRule at h
  simp only [] at h
  rcases hm : (filterMaxSpec (lookup sym) l rc).1 with _ | ⟨m, _ | ⟨m2, ms⟩⟩
  · rw [hm] at h; simp at h
  · rw [hm] at h
    simp only [Prod.mk.injEq, Option.some.injEq] at h
    simp [hm, h.1]
  · rw [hm] at h
    simp only [] at h
    split at h
    · simp only [Prod.mk.injEq, Option.some.injEq] at h
      rcases list_getD_mem (m :: m2 :: ms)
          (randRangeInt 0 (((m :: m2 :: ms).length : Int) - 1) s).1.toNat m
        with h2 | h2
      · exact h.1 ▸ h2
      · rw [← h.1, h2]; simp
    · split at h
      · rename_i r2 hpick
        simp only [Prod.mk.injEq, Option.some.injEq] at h
        exact h.1 ▸ pickByCumulative_mem hpick
      · simp only [Prod.mk.injEq, Option.some.injEq] at h
        exact h.1 ▸ list_getLastD_mem_cons (m2 :: ms) m

/-- If some rule in the lookup list matches the context, `SelectRule`
returns a rule (never the identity production). -/
lemma SelectRule_matching_some {lookup : Char → List FLSystemRule}
    {sym l rc : Char} (s : Nat) {r0 : FLSystemRule}
    (hr0 : r0 ∈ lookup sym) (hm : r0.MatchesContext l rc = true) :
    ∃ ru s2, SelectRule lookup sym l rc s = (some ru, s2) := by
  obtain ⟨_, _, i3, _, i5⟩ :=
    specFold_inv l rc (lookup sym) [] (-1) (by simp) (by simp)
  have hne : (filterMaxSpec (lookup sym) l rc).1 ≠ [] := by
    intro hemp
    have h2 := i5 hemp
    have h3 := i3 r0 hr0 hm
    have h4 : (0 : Int) ≤ r0.GetContextSpecificity := by
      unfold FLSystemRule.GetContextSpecificity
      split <;> split <;> norm_num
    omega
  unfold SelectRule
  simp only []
  rcases hms : (filterMaxSpec (lookup sym) l rc).1 with _ | ⟨m, _ | ⟨m2, ms⟩⟩
  · exact absurd hms hne
  · exact ⟨m, s, rfl⟩
  · simp only []
    split
    · exact ⟨_, _, rfl⟩
    · rcases hpick : pickByCumulative
          (fRandRange 0 ((m :: m2 :: ms).map FLSystemRule.probability).sum s).1 0
          (m :: m2 :: ms) with _ | r2
      · exact ⟨_, _, rfl⟩
      · exact ⟨_, _, rfl⟩

/-! ### Rule validity lemmas -/

lemma isValid_spec {r : FLSystemRule} (hv : r.IsValid = true) :
    r.predecessor.length = 1 ∧ 0 < r.successor.length ∧
    0 ≤ r.probability ∧ r.probability ≤ 1 ∧
    r.leftContext.length ≤ 1 ∧ r.rightContext.length ≤ 1 := by
  unfold FLSystemRule.IsValid at hv
  split_ifs at hv with h1 h2 h3 h4
  push_neg at h1 h2 h3 h4
  exact ⟨h1, Nat.pos_of_ne_zero h2, h3.1, h3.2, h4.1, h4.2⟩

lemma isValid_false {r : FLSystemRule}
    (hbad : r.predecessor.length ≠ 1 ∨ r.successor.length = 0 ∨
      r.probability < 0 ∨ 1 < r.probability ∨
      1 < r.leftContext.length ∨ 1 < r.rightContext.length) :
    r.IsValid = false := by
  unfold FLSystemRule.IsValid
  split_ifs with h1 h2 h3 h4
  any_goals rfl
  push_neg at h1 h2 h3 h4
  rcases hbad with h | h | h | h | h | h
  · exact absurd h1 h
  · exact absurd h h2
  · exact absurd h (not_lt.2 h3.1)
  · exact absurd h (not_lt.2 h3.2)
  · exact absurd h (not_lt.2 h4.1)
  · exact absurd h (not_lt.2 h4.2)

lemma valid_predecessor_eq {r : FLSystemRule} (hv : r.IsValid = true) :
    r.predecessor = [r.GetPredecessorChar] := by
  have h1 := (isValid_spec hv).1
  unfold FLSystemRule.GetPredecessorChar
  rcases hp : r.predecessor with _ | ⟨p, t⟩
  · rw [hp] at h1; simp at h1
  · rw [hp] at h1
    simp at h1
    simp [h1]

/-! ### Identity rule sets leave every string unchanged -/

lemma applyRulesGo_identity (cfg : FLSystemConfig) (rules : List FLSystemRule)
    (hident : ∀ r ∈ rules, r.successor = r.predecessor) :
    ∀ (input acc : List Char) (left : Char) (s : Nat),
      ((acc.length + input.length : Nat) : Int) < cfg.maxStringLength →
      (applyRulesGo cfg (ruleLookup rules) left input acc s).1 = acc ++ input := by
  intro input
  induction input with
  | nil => intro acc left s h; simp [applyRulesGo]
  | cons c rest ih =>
      intro acc left s h
      simp only [applyRulesGo]
      rcases hsel : SelectRule (ruleLookup rules) c left (rest.headD nullChar) s
        with ⟨o, s2⟩
      have hnotrunc : ¬ (cfg.maxStringLength < ((acc ++ [c]).length : Int)) := by
        simp only [List.length_append, List.length_cons, List.length_nil]
        simp only [List.length_cons] at h
        push_neg
        omega
      have hrest :
          (((acc ++ [c]).length + rest.length : Nat) : Int) <
            cfg.maxStringLength := by
        simp only [List.length_append, List.length_cons, List.length_nil]
        simp only [List.length_cons] at h
        omega
      cases o with
      | none =>
          simp only []
          rw [if_neg hnotrunc, ih (acc ++ [c]) c s2 hrest]
          simp
      | some ru =>
          have hmem := SelectRule_some_mem hsel
          have hmem2 : ru ∈ ruleLookup rules c :=
            (filterMaxSpec_spec (ruleLookup rules c) left
              (rest.headD nullChar)).2.2 ru hmem
          obtain ⟨hrul, hval, hpred⟩ := ruleLookup_mem hmem2
          have hsucc : ru.successor = [c] := by
            rw [hident ru hrul, valid_predecessor_eq hval, hpred]
          simp only [hsucc]
          rw [if_neg hnotrunc, ih (acc ++ [c]) c s2 hrest]
          simp

/-! ### Claim theorems: rule engine -/

/-- Claim C1: in one apply-rules pass, whenever the engine selects a rule
it is a context-matching rule of maximal context-specificity among the
rules installed for that symbol (strict shadowing), a position with at
least one context-matching rule always gets a rule applied, and with the
rules `B -> Y` and `A<B>C -> X` installed, one iteration from axiom
`"ABC"` yields exactly `"AXC"`. -/
theorem claim_C1_context_shadowing :
    (∀ (rules : List FLSystemRule) (sym l rc : Char) (s : Nat)
        (ru : FLSystemRule) (s2 : Nat),
        SelectRule (ruleLookup rules) sym l rc s = (some ru, s2) →
        ru ∈ ruleLookup rules sym ∧ ru.MatchesContext l rc = true ∧
        ∀ r ∈ ruleLookup rules sym, r.MatchesContext l rc = true →
          r.GetContextSpecificity ≤ ru.GetContextSpecificity) ∧
    (∀ (rules : List FLSystemRule) (sym l rc : Char) (s : Nat),
        (∃ r ∈ ruleLookup rules sym, r.MatchesContext l rc = true) →
        ∃ ru s2, SelectRule (ruleLookup rules) sym l rc s = (some ru, s2)) ∧
    (DoGeneration [ruleBY, ruleABCX] ['A', 'B', 'C'] 1 defaultConfig
      0).generatedString = ['A', 'X', 'C'] := by
  refine ⟨?_, ?_, by decide⟩
  · intro rules sym l rc s ru s2 hsel
    have hmem := SelectRule_some_mem hsel
    obtain ⟨h1, h2, h3⟩ := filterMaxSpec_spec (ruleLookup rules sym) l rc
    obtain ⟨hmatch, hspec⟩ := h1 ru hmem
    refine ⟨h3 ru hmem, hmatch, ?_⟩
    intro r hr hmr
    rw [hspec]
    exact h2 r hr hmr
  · intro rules sym l rc s hex
    obtain ⟨r0, hr0, hm0⟩ := hex
    exact SelectRule_matching_some s hr0 hm0

/-- Witness for C1: at symbol `B` between `A` and `C` with the two rules
of the shadowing example installed, the engine selects the context rule,
which matches and has maximal specificity among the installed rules. -/
theorem claim_C1_witness :
    ruleABCX ∈ ruleLookup [ruleBY, ruleABCX] 'B' ∧
    ruleABCX.MatchesContext 'A' 'C' = true ∧
    ∀ r ∈ ruleLookup [ruleBY, ruleABCX] 'B',
      r.MatchesContext 'A' 'C' = true →
      r.GetContextSpecificity ≤ ruleABCX.GetContextSpecificity :=
  claim_C1_context_shadowing.1 [ruleBY, ruleABCX] 'B' 'A' 'C' 0 ruleABCX 0
    (by decide)

/-- Claim C2: axiom `"A"` with rules `A -> AB` and `B -> A` under the
default limits yields `"ABAAB"` after 3 iterations and `"ABAABABAABAAB"`
after 5 (Lindenmayer's algae sequence). -/
theorem claim_C2_algae_roundtrip :
    (DoGeneration [ruleAAB, ruleBA] ['A'] 3 defaultConfig 0).generatedString =
      ['A', 'B', 'A', 'A', 'B'] ∧
    (DoGeneration [ruleAAB, ruleBA] ['A'] 5 defaultConfig 0).generatedString =
      ['A', 'B', 'A', 'A', 'B', 'A', 'B', 'A', 'A', 'B', 'A', 'A', 'B'] := by
  exact ⟨rfl, rfl⟩

/-- Claim C3: with `maxStringLength = 50` and rule `F -> FF`, requesting
10 iterations from `"F"` succeeds with a string of at most 50 characters
(in fact exactly 50, truncated mid-iteration in pass 6); with
`maxIterations = 3`, requesting 10 iterations reports exactly 3 completed
iterations in the statistics. -/
theorem claim_C3_caps_honored :
    ((DoGeneration [ruleFFF] ['F'] 10 cfgLen50 0).success = true ∧
      (DoGeneration [ruleFFF] ['F'] 10 cfgLen50 0).generatedString.length ≤ 50) ∧
    (DoGeneration [ruleFFF] ['F'] 10 cfgIter3 0).totalIterations = 3 := by
  refine ⟨⟨rfl, by decide⟩, by decide⟩

/-- Counterexample to claim C4 as stated: with the configured random seed
`0` — a legal fixed seed value — the stream is re-seeded from ambient
`FMath::Rand()` entropy on every call, so two `Generate` calls with
identical rule set, axiom, iteration count and configured seed can return
different strings when equally specific stochastic rules tie (here
`A -> B (0.5)` against `A -> C (0.5)`). -/
theorem claim_C4_seed_zero_counterexample :
    (DoGeneration [ruleABhalf, ruleAChalf] ['A'] 1 defaultConfig
        0).generatedString ≠
    (DoGeneration [ruleABhalf, ruleAChalf] ['A'] 1 defaultConfig
        7).generatedString := by
  with_unfolding_all decide

/-- Claim C4 (amended): for every fixed rule set, axiom, iteration count
and NONZERO random seed, `Generate` is a pure function of its inputs —
the ambient entropy is ignored and repeated calls return identical
results.  (With seed `0` the source deliberately draws a fresh
time-based seed, see the counterexample.) -/
theorem claim_C4_determinism_amended (rules : List FLSystemRule)
    (axiomStr : List Char) (iterations : Int) (cfg : FLSystemConfig)
    (amb1 amb2 : Int) (hseed : cfg.randomSeed ≠ 0) :
    DoGeneration rules axiomStr iterations cfg amb1 =
      DoGeneration rules axiomStr iterations cfg amb2 := by
  unfold DoGeneration
  rw [if_pos hseed, if_pos hseed]

/-- Witness for the amended C4: with seed `1` the two ambient entropy
values that gave different strings at seed `0` now give identical
results. -/
theorem claim_C4_witness :
    cfgSeed1.randomSeed ≠ 0 ∧
    DoGeneration [ruleABhalf, ruleAChalf] ['A'] 1 cfgSeed1 0 =
      DoGeneration [ruleABhalf, ruleAChalf] ['A'] 1 cfgSeed1 7 :=
  ⟨by decide,
   claim_C4_determinism_amended [ruleABhalf, ruleAChalf] ['A'] 1 cfgSeed1 0 7
     (by decide)⟩

/-- Claim C5: if every installed rule rewrites its symbol to itself, a
valid generation run returns the axiom unchanged for any requested
iteration count, and the loop stops through the string-unchanged check
after completing exactly one iteration instead of running to
`maxIterations`. -/
theorem claim_C5_identity_fixed_point (rules : List FLSystemRule)
    (axiomStr : List Char) (iterations : Int) (cfg : FLSystemConfig)
    (ambient : Int)
    (hax : axiomStr ≠ [])
    (hrules : rules ≠ [])
    (hvalid : ∀ r ∈ rules, r.IsValid = true)
    (hident : ∀ r ∈ rules, r.successor = r.predecessor)
    (hlen : ((axiomStr.length : Nat) : Int) < cfg.maxStringLength)
    (hiter : 1 ≤ cfg.maxIterations) :
    (DoGeneration rules axiomStr iterations cfg ambient).success = true ∧
    (DoGeneration rules axiomStr iterations cfg ambient).generatedString =
      axiomStr ∧
    (DoGeneration rules axiomStr iterations cfg ambient).totalIterations = 1 := by
  have hval : Validate rules axiomStr = true := by
    unfold Validate
    rw [if_neg (by simpa using hax), if_neg (by simpa using hrules)]
    exact List.all_eq_true.2 hvalid
  unfold DoGeneration DoGenerationWith
  rw [if_pos hval]
  simp only []
  set s0 := if cfg.randomSeed ≠ 0 then initSeed cfg.randomSeed
    else initSeed ambient with hs0
  have hclamp : 1 ≤ clampInt iterations 1 cfg.maxIterations := by
    unfold clampInt
    split_ifs <;> omega
  have hfuel : (clampInt iterations 1 cfg.maxIterations).toNat =
      ((clampInt iterations 1 cfg.maxIterations).toNat - 1) + 1 := by omega
  rw [hfuel]
  have hterm : CheckTermination cfg false axiomStr 0 = false := by
    unfold CheckTermination
    rw [if_neg (by omega), if_neg (by omega)]
    simp
  have happly : (ApplyRules cfg (ruleLookup rules) axiomStr s0).1 = axiomStr := by
    have := applyRulesGo_identity cfg rules hident axiomStr [] nullChar s0
      (by simpa using hlen)
    simpa [ApplyRules] using this
  simp only [genLoop, hterm, Bool.false_eq_true, if_false, happly, if_pos rfl]
  simp

/-- Witness for C5: the identity rule `A -> A` over axiom `"AA"` with the
default configuration. -/
theorem claim_C5_witness :
    (DoGeneration [ruleAA] ['A', 'A'] 9 defaultConfig 0).success = true ∧
    (DoGeneration [ruleAA] ['A', 'A'] 9 defaultConfig 0).generatedString =
      ['A', 'A'] ∧
    (DoGeneration [ruleAA] ['A', 'A'] 9 defaultConfig 0).totalIterations = 1 :=
  claim_C5_identity_fixed_point [ruleAA] ['A', 'A'] 9 defaultConfig 0
    (by decide) (by decide) (by decide) (by decide) (by decide) (by decide)

/-- Claim C6: `AddRule` rejects every malformed rule — predecessor length
different from 1, empty successor, probability outside `[0,1]`, or a
context slot longer than one symbol — leaving the installed collection
unchanged; in particular an out-of-range probability is never installed. -/
theorem claim_C6_addrule_rejects (rules : List FLSystemRule)
    (r : FLSystemRule)
    (hbad : r.predecessor.length ≠ 1 ∨ r.successor.length = 0 ∨
      r.probability < 0 ∨ 1 < r.probability ∨
      1 < r.leftContext.length ∨ 1 < r.rightContext.length) :
    AddRule rules r = rules := by
  unfold AddRule
  rw [isValid_false hbad]
  simp

/-- Witness for C6: the rule with probability `2` is rejected and the
collection is unchanged. -/
theorem claim_C6_witness :
    (1 : ℚ) < badProbRule.probability ∧
    AddRule [ruleAA] badProbRule = [ruleAA] :=
  ⟨by norm_num [badProbRule],
   claim_C6_addrule_rejects [ruleAA] badProbRule
     (Or.inr (Or.inr (Or.inr (Or.inl (by norm_num [badProbRule])))))⟩

/-! ### Turtle interpreter: branch/pop balance (C7) -/

lemma handleForward_disc (cfg : FTurtleConfig) (b : Bool) (m : TurtleMachine) :
    (handleForward cfg b m).stateStack = m.stateStack ∧
    (handleForward cfg b m).currentState.depth = m.currentState.depth ∧
    (handleForward cfg b m).skipBranchDepth = m.skipBranchDepth ∧
    (handleForward cfg b m).maxDepthReached = m.maxDepthReached ∧
    (handleForward cfg b m).outputLeaves = m.outputLeaves ∧
    (handleForward cfg b m).skipLog = m.skipLog := by
  unfold handleForward
  refine ⟨?_, ?_, ?_, ?_, ?_, ?_⟩ <;> (simp only []; split <;> rfl)

lemma processSymbol_neutral (cfg : FTurtleConfig) (c : Char) (m : TurtleMachine)
    (hskip : ¬ 0 < m.skipBranchDepth)
    (hc1 : ¬ c = '[') (hc2 : ¬ c = ']') (hc3 : ¬ c = 'L') :
    (processSymbol cfg m c).stateStack = m.stateStack ∧
    (processSymbol cfg m c).currentState.depth = m.currentState.depth ∧
    (processSymbol cfg m c).skipBranchDepth = m.skipBranchDepth ∧
    (processSymbol cfg m c).maxDepthReached = m.maxDepthReached ∧
    (processSymbol cfg m c).outputLeaves = m.outputLeaves ∧
    (processSymbol cfg m c).skipLog = m.skipLog := by
  unfold processSymbol
  rw [if_neg hskip]
  split_ifs
  · exact handleForward_disc cfg true m
  · exact handleForward_disc cfg false m
  · simp [handleRotateYaw]
  · simp [handleRotatePitch]
  · simp [handleRotateRoll]
  · simp [handleRotateYaw]
  · exact ⟨rfl, rfl, rfl, rfl, rfl, rfl⟩

lemma turtle_walk_aux (cfg : FTurtleConfig) :
    ∀ (input : List Char) (m : TurtleMachine),
      m.currentState.depth = m.stateStack.length →
      StackOK m.stateStack →
      ∃ (L : List Bool) (lc mp : Nat),
        (input.foldl (processSymbol cfg) m).skipLog = m.skipLog ++ L ∧
        (input.foldl (processSymbol cfg) m).outputLeaves.length
          = m.outputLeaves.length + lc ∧
        (input.foldl (processSymbol cfg) m).maxDepthReached
          = max m.maxDepthReached mp ∧
        (input.foldl (processSymbol cfg) m).currentState.depth
          = (input.foldl (processSymbol cfg) m).stateStack.length ∧
        StackOK (input.foldl (processSymbol cfg) m).stateStack ∧
        ∀ extra, leafDepthWalk input (L ++ extra) m.skipBranchDepth
          m.currentState.depth = (lc, mp, extra) := by
  intro input
  induction input with
  | nil =>
      intro m hd hs
      exact ⟨[], 0, 0, by simp, by simp, by simp, hd, hs,
        fun extra => by simp [leafDepthWalk]⟩
  | cons c rest ih =>
      intro m hd hs
      simp only [List.foldl_cons]
      by_cases hskip : 0 < m.skipBranchDepth
      · by_cases hlb : c = '['
        · subst hlb
          have hm1 : processSymbol cfg m '[' =
              { m with skipBranchDepth := m.skipBranchDepth + 1 } := by
            unfold processSymbol
            rw [if_pos hskip, if_pos rfl]
          rw [hm1]
          obtain ⟨L, lc, mp, h1, h2, h3, h4, h5, h6⟩ :=
            ih { m with skipBranchDepth := m.skipBranchDepth + 1 } hd hs
          refine ⟨L, lc, mp, h1, h2, h3, h4, h5, ?_⟩
          intro extra
          simp only [leafDepthWalk]
          rw [if_pos hskip]
          exact h6 extra
        · by_cases hrb : c = ']'
          · subst hrb
            have hm1 : processSymbol cfg m ']' =
                { m with skipBranchDepth := m.skipBranchDepth - 1 } := by
              unfold processSymbol
              rw [if_pos hskip, if_neg (by decide), if_pos rfl]
            rw [hm1]
            obtain ⟨L, lc, mp, h1, h2, h3, h4, h5, h6⟩ :=
              ih { m with skipBranchDepth := m.skipBranchDepth - 1 } hd hs
            refine ⟨L, lc, mp, h1, h2, h3, h4, h5, ?_⟩
            intro extra
            simp only [leafDepthWalk]
            rw [if_pos hskip]
            exact h6 extra
          · have hm1 : processSymbol cfg m c = m := by
              unfold processSymbol
              rw [if_pos hskip, if_neg hlb, if_neg hrb]
            rw [hm1]
            obtain ⟨L, lc, mp, h1, h2, h3, h4, h5, h6⟩ := ih _ hd hs
            refine ⟨L, lc, mp, h1, h2, h3, h4, h5, ?_⟩
            intro extra
            simp only [leafDepthWalk]
            rw [if_pos hskip, if_neg hlb, if_neg hrb]
            exact h6 extra
      · have hskip0 : m.skipBranchDepth = 0 := by omega
        by_cases hlb : c = '['
        · subst hlb
          have hpp : processSymbol cfg m '[' = handlePushState cfg m := by
            unfold processSymbol
            rw [if_neg hskip]
            rfl
          rw [hpp]
          unfold handlePushState
          rw [if_neg hskip]
          by_cases hprob : cfg.branchProbability < 1
          · rw [if_pos hprob]
            by_cases hroll : cfg.branchProbability < (getFraction m.stream).1
            · rw [if_pos hroll]
              obtain ⟨L, lc, mp, h1, h2, h3, h4, h5, h6⟩ :=
                ih { m with
                      skipBranchDepth := 1
                      stream := (getFraction m.stream).2
                      skipLog := m.skipLog ++ [true] } hd hs
              refine ⟨true :: L, lc, mp, ?_, h2, h3, h4, h5, ?_⟩
              · simpa using h1
              · intro extra
                simp only [leafDepthWalk]
                rw [if_neg hskip]
                simpa using h6 extra
            · rw [if_neg hroll]
              obtain ⟨L, lc, mp, h1, h2, h3, h4, h5, h6⟩ :=
                ih (pushCore cfg { m with
                      stream := (getFraction m.stream).2
                      skipLog := m.skipLog ++ [false] })
                  (by simp [pushCore, hd]) (by exact ⟨hd, hs⟩)
              refine ⟨false :: L, lc, max (m.currentState.depth + 1) mp, ?_,
                h2, ?_, h4, h5, ?_⟩
              · simpa [pushCore] using h1
              · have h3b : (rest.foldl (processSymbol cfg)
                    (pushCore cfg { m with
                      stream := (getFraction m.stream).2
                      skipLog := m.skipLog ++ [false] })).maxDepthReached
                    = max (max m.maxDepthReached (m.currentState.depth + 1)) mp := by
                  simpa [pushCore] using h3
                rw [h3b, Nat.max_assoc]
              · intro extra
                simp only [leafDepthWalk]
                rw [if_neg hskip]
                simp only [List.cons_append]
                have h6b := h6 extra
                simp only [pushCore] at h6b
                rw [hskip0] at h6b
                simp [h6b]
          · rw [if_neg hprob]
            obtain ⟨L, lc, mp, h1, h2, h3, h4, h5, h6⟩ :=
              ih (pushCore cfg { m with skipLog := m.skipLog ++ [false] })
                (by simp [pushCore, hd]) (by exact ⟨hd, hs⟩)
            refine ⟨false :: L, lc, max (m.currentState.depth + 1) mp, ?_,
              h2, ?_, h4, h5, ?_⟩
            · simpa [pushCore] using h1
            · have h3b : (rest.foldl (processSymbol cfg)
                  (pushCore cfg { m with skipLog := m.skipLog ++ [false]
                    })).maxDepthReached
                  = max (max m.maxDepthReached (m.currentState.depth + 1)) mp := by
                simpa [pushCore] using h3
              rw [h3b, Nat.max_assoc]
            · intro extra
              simp only [leafDepthWalk]
              rw [if_neg hskip]
              simp only [List.cons_append]
              have h6b := h6 extra
              simp only [pushCore] at h6b
              rw [hskip0] at h6b
              simp [h6b]
        · by_cases hrb : c = ']'
          · subst hrb
            have hpp : processSymbol cfg m ']' = handlePopState m := by
              unfold processSymbol
              rw [if_neg hskip, if_neg (by decide), if_neg (by decide),
                if_neg (by decide), if_neg (by decide), if_neg (by decide),
                if_neg (by decide), if_neg (by decide), if_pos rfl]
            rw [hpp]
            unfold handlePopState
            rw [if_neg hskip]
            rcases hstack : m.stateStack with _ | ⟨top, restS⟩
            · have hd0 : m.currentState.depth = 0 := by
                rw [hd, hstack]; rfl
              obtain ⟨L, lc, mp, h1, h2, h3, h4, h5, h6⟩ := ih m hd hs
              refine ⟨L, lc, mp, h1, h2, h3, h4, h5, ?_⟩
              intro extra
              simp only [leafDepthWalk]
              rw [if_neg hskip]
              rw [hd0]
              simpa [hd0] using h6 extra
            · rw [hstack] at hs
              obtain ⟨htop, hrest⟩ := hs
              obtain ⟨L, lc, mp, h1, h2, h3, h4, h5, h6⟩ :=
                ih { m with currentState := top, stateStack := restS }
                  (by simpa using htop) (by simpa using hrest)
              refine ⟨L, lc, mp, h1, h2, h3, h4, h5, ?_⟩
              intro extra
              simp only [leafDepthWalk]
              rw [if_neg hskip]
              have hdep : m.currentState.depth - 1 = top.depth := by
                rw [hd, hstack]
                simp [htop]
              rw [hdep]
              simpa using h6 extra
          · by_cases hL : c = 'L'
            · subst hL
              have hpp : processSymbol cfg m 'L' = handlePlaceLeaf cfg m := by
                unfold processSymbol
                rw [if_neg hskip, if_neg (by decide), if_neg (by decide),
                  if_neg (by decide), if_neg (by decide), if_neg (by decide),
                  if_neg (by decide), if_neg (by decide), if_neg (by decide),
                  if_pos rfl]
              rw [hpp]
              unfold handlePlaceLeaf
              simp only []
              obtain ⟨L, lc, mp, h1, h2, h3, h4, h5, h6⟩ :=
                ih { m with
                      outputLeaves := m.outputLeaves ++
                        [{ size := cfg.leafSize
                           rotation := (fRandRange (-30) 30 m.stream).1
                           depth := m.currentState.depth }]
                      stream := (fRandRange (-30) 30 m.stream).2 } hd hs
              refine ⟨L, lc + 1, mp, h1, ?_, h3, h4, h5, ?_⟩
              · have h2b := h2
                simp only [List.length_append, List.length_cons,
                  List.length_nil] at h2b
                omega
              · intro extra
                have h6b : leafDepthWalk rest (L ++ extra) m.skipBranchDepth
                    m.currentState.depth = (lc, mp, extra) := h6 extra
                simp only [leafDepthWalk]
                rw [if_neg hskip, if_neg hlb, if_neg hrb]
                simp [h6b]
            · obtain ⟨n1, n2, n3, n4, n5, n6⟩ :=
                processSymbol_neutral cfg c m hskip hlb hrb hL
              obtain ⟨L, lc, mp, h1, h2, h3, h4, h5, h6⟩ :=
                ih (processSymbol cfg m c) (by rw [n2, n1, hd]) (by rw [n1]; exact hs)
              refine ⟨L, lc, mp, by rw [h1, n6], by rw [h2, n5], by rw [h3, n4],
                h4, h5, ?_⟩
              intro extra
              simp only [leafDepthWalk]
              rw [if_neg hskip, if_neg hlb, if_neg hrb, if_neg hL]
              have h6b := h6 extra
              rw [n3, n2] at h6b
              exact h6b

/-- Claim C7: for every interpreted string (and any configuration, prior
stream state and ambient entropy), replaying the symbols against the run's
own branch-skip decisions with a plain skip counter and bracket-nesting
counter reproduces the interpreter's outputs exactly: the leaf count is
the number of `L` symbols seen outside skipped subtrees, the reported
maximum depth is the maximum nesting level of unskipped brackets (the
nesting depth of unskipped `[`/`]` pairs on bracket-balanced strings),
and every recorded decision is consumed. -/
theorem claim_C7_branch_pop_balance (cfg : FTurtleConfig) (input : List Char)
    (priorStream : Nat) (ambient : Int) :
    leafDepthWalk input
        (InterpretString cfg input priorStream ambient).skipLog 0 0 =
      ((InterpretString cfg input priorStream ambient).outputLeaves.length,
        (InterpretString cfg input priorStream ambient).maxDepthReached,
        ([] : List Bool)) := by
  obtain ⟨L, lc, mp, h1, h2, h3, h4, h5, h6⟩ :=
    turtle_walk_aux cfg input
      { initMachine cfg priorStream with
        stream := if cfg.randomSeed ≠ 0 then initSeed cfg.randomSeed
          else initSeed ambient } rfl trivial
  have hrun : InterpretString cfg input priorStream ambient =
      input.foldl (processSymbol cfg)
        { initMachine cfg priorStream with
          stream := if cfg.randomSeed ≠ 0 then initSeed cfg.randomSeed
            else initSeed ambient } := rfl
  have h1b : (InterpretString cfg input priorStream ambient).skipLog = L := by
    rw [hrun]
    simpa [initMachine] using h1
  have h2b : (InterpretString cfg input priorStream ambient).outputLeaves.length
      = lc := by
    rw [hrun]
    simpa [initMachine] using h2
  have h3b : (InterpretString cfg input priorStream ambient).maxDepthReached
      = mp := by
    rw [hrun]
    simpa [initMachine] using h3
  have h6b : leafDepthWalk input (L ++ []) 0 0 = (lc, mp, []) := h6 []
  rw [h1b, h2b, h3b]
  simpa using h6b

/-! ### Mesh synthesizer: leaf block layout (C10) -/

lemma generateLeafQuad_shape (dls : ℚ × ℚ) (mesh : FTreeMeshData)
    (leaf : FLeafData) :
    (GenerateLeafQuad dls mesh leaf).vertices.length
      = mesh.vertices.length + 4 ∧
    (GenerateLeafQuad dls mesh leaf).triangles
      = mesh.triangles ++ leafQuadIndices mesh.vertices.length ∧
    (GenerateLeafQuad dls mesh leaf).branchVertexCount
      = mesh.branchVertexCount ∧
    (GenerateLeafQuad dls mesh leaf).branchTriangleCount
      = mesh.branchTriangleCount := by
  refine ⟨by simp [GenerateLeafQuad], ?_, rfl, rfl⟩
  simp [GenerateLeafQuad, leafQuadIndices]

lemma leafTriangleBlocks_succ (base n : Nat) :
    leafTriangleBlocks base (n + 1) =
      leafQuadIndices base ++ leafTriangleBlocks (base + 4) n := by
  unfold leafTriangleBlocks
  rw [List.range_succ_eq_map, List.map_cons, List.flatten_cons, List.map_map]
  congr 2
  apply List.map_congr_left
  intro k hk
  simp only [Function.comp]
  congr 1
  omega

lemma leafTriangleBlocks_length (base n : Nat) :
    (leafTriangleBlocks base n).length = 12 * n := by
  induction n generalizing base with
  | zero => simp [leafTriangleBlocks]
  | succ k ih =>
      rw [leafTriangleBlocks_succ, List.length_append, ih]
      simp [leafQuadIndices]
      omega

lemma leafFold_shape (dls : ℚ × ℚ) :
    ∀ (leaves : List FLeafData) (mesh : FTreeMeshData),
      (leaves.foldl (GenerateLeafQuad dls) mesh).vertices.length
        = mesh.vertices.length + 4 * leaves.length ∧
      (leaves.foldl (GenerateLeafQuad dls) mesh).triangles
        = mesh.triangles ++
          leafTriangleBlocks mesh.vertices.length leaves.length ∧
      (leaves.foldl (GenerateLeafQuad dls) mesh).branchVertexCount
        = mesh.branchVertexCount ∧
      (leaves.foldl (GenerateLeafQuad dls) mesh).branchTriangleCount
        = mesh.branchTriangleCount := by
  intro leaves
  induction leaves with
  | nil => intro mesh; simp [leafTriangleBlocks]
  | cons lf rest ih =>
      intro mesh
      simp only [List.foldl_cons]
      obtain ⟨q1, q2, q3, q4⟩ := generateLeafQuad_shape dls mesh lf
      obtain ⟨i1, i2, i3, i4⟩ := ih (GenerateLeafQuad dls mesh lf)
      refine ⟨?_, ?_, by rw [i3, q3], by rw [i4, q4]⟩
      · rw [i1, q1, List.length_cons]
        ring
      · rw [i2, q2, q1, List.length_cons, leafTriangleBlocks_succ,
          List.append_assoc]

lemma connectRings_tri_len (mesh : FTreeMeshData) (s e n : Nat) :
    (ConnectRings mesh s e n).triangles.length
      = mesh.triangles.length + 6 * n := by
  unfold ConnectRings
  simp only [List.length_append, List.length_flatten, List.map_map]
  have hmap : (List.range n).map
      (List.length ∘ fun i =>
        [s + i, e + i, s + (i + 1) % n, s + (i + 1) % n, e + i,
          e + (i + 1) % n]) = (List.range n).map (fun _ => 6) := by
    apply List.map_congr_left
    intro k hk
    rfl
  rw [hmap]
  simp [mul_comm]

lemma generateRing_shape (mesh : FTreeMeshData) (c d : V3) (r : ℚ)
    (n : Nat) (v : ℚ) :
    (GenerateRing mesh c d r n v).1 = mesh.vertices.length ∧
    (GenerateRing mesh c d r n v).2.vertices.length
      = mesh.vertices.length + n ∧
    (GenerateRing mesh c d r n v).2.triangles = mesh.triangles ∧
    (GenerateRing mesh c d r n v).2.branchVertexCount
      = mesh.branchVertexCount ∧
    (GenerateRing mesh c d r n v).2.branchTriangleCount
      = mesh.branchTriangleCount := by
  refine ⟨rfl, by simp [GenerateRing], rfl, rfl, rfl⟩

lemma branchLoop_tri_dvd (segLen : FBranchSegment → ℚ) (tiling : ℚ) (n : Nat) :
    ∀ (rest : List FBranchSegment) (i : Nat) (st : GeomState),
      3 ∣ st.mesh.triangles.length →
      3 ∣ (branchLoop segLen tiling n i rest st).mesh.triangles.length := by
  intro rest
  induction rest with
  | nil => intro i st h; simpa [branchLoop] using h
  | cons seg rest2 ih =>
      intro i st h
      simp only [branchLoop]
      apply ih
      unfold GenerateBranchCylinderConnected
      split_ifs with hdeg hp
      · simpa using h
      · simp only []
        rcases hfind : findAssoc st.segmentEndRingIndices
            seg.parentSegmentIndex.toNat with _ | pe
        · simp only []
          rw [connectRings_tri_len]
          show 3 ∣ st.mesh.triangles.length + 6 * n
          omega
        · simp only []
          rw [connectRings_tri_len]
          show 3 ∣ st.mesh.triangles.length + 6 * n
          omega
      · simp only []
        rw [connectRings_tri_len]
        show 3 ∣ st.mesh.triangles.length + 6 * n
        omega

/-- Claim C10: in a mesh built with leaves included, every leaf contributes
exactly 4 vertices and 4 triangles (front-facing pair `0-1-2`, `0-2-3` and
back-facing pair `2-1-0`, `3-2-0`), so the total vertex count is
`BranchVertexCount + 4 * #leaves`, the triangle stream is the branch-only
triangle stream (`3 * BranchTriangleCount` indices) followed exactly by the
leaf quad blocks based at the branch vertex count. -/
theorem claim_C10_leaf_block_layout (segLen : FBranchSegment → ℚ)
    (tiling : ℚ) (dls : ℚ × ℚ) (segments : List FBranchSegment)
    (leaves : List FLeafData) (rs : Int) :
    (GenerateMesh segLen tiling dls segments leaves rs true).branchVertexCount
      = (GenerateMesh segLen tiling dls segments leaves rs
          false).vertices.length ∧
    (GenerateMesh segLen tiling dls segments leaves rs true).vertices.length
      = (GenerateMesh segLen tiling dls segments leaves rs
          true).branchVertexCount + 4 * leaves.length ∧
    (GenerateMesh segLen tiling dls segments leaves rs
        false).triangles.length
      = 3 * (GenerateMesh segLen tiling dls segments leaves rs
          true).branchTriangleCount ∧
    (GenerateMesh segLen tiling dls segments leaves rs true).triangles
      = (GenerateMesh segLen tiling dls segments leaves rs false).triangles
        ++ leafTriangleBlocks
          (GenerateMesh segLen tiling dls segments leaves rs
            true).branchVertexCount leaves.length ∧
    (GenerateMesh segLen tiling dls segments leaves rs true).triangles.length
      = 3 * (GenerateMesh segLen tiling dls segments leaves rs
          true).branchTriangleCount + 12 * leaves.length := by
  have hdvd := branchLoop_tri_dvd segLen tiling (clampInt rs 3 32).toNat
    segments 0
    { mesh := emptyMesh, segmentEndRingIndices := [], currentV := 0,
      ringPairs := [] }
    (by simp [emptyMesh])
  unfold GenerateMesh GenerateMeshFull
  simp only []
  simp only [Bool.false_eq_true, if_true, if_false]
  generalize hst : branchLoop segLen tiling (clampInt rs 3 32).toNat 0 segments
      { mesh := emptyMesh, segmentEndRingIndices := [], currentV := 0,
        ringPairs := [] } = st1
  rw [hst] at hdvd
  obtain ⟨f1, f2, f3, f4⟩ := leafFold_shape dls leaves
    { st1.mesh with
      branchVertexCount := st1.mesh.vertices.length
      branchTriangleCount := st1.mesh.triangles.length / 3 }
  refine ⟨?_, ?_, ?_, ?_, ?_⟩
  · exact f3
  · rw [f1, f3]
  · show st1.mesh.triangles.length
      = 3 * (leaves.foldl (GenerateLeafQuad dls)
          { st1.mesh with
            branchVertexCount := st1.mesh.vertices.length
            branchTriangleCount :=
              st1.mesh.triangles.length / 3 }).branchTriangleCount
    rw [f4]
    show st1.mesh.triangles.length = 3 * (st1.mesh.triangles.length / 3)
    omega
  · rw [f2, f3]
  · rw [f2, f4, List.length_append]
    show st1.mesh.triangles.length
        + (leafTriangleBlocks st1.mesh.vertices.length leaves.length).length
      = 3 * (st1.mesh.triangles.length / 3) + 12 * leaves.length
    rw [leafTriangleBlocks_length]
    omega

/-! ### Mesh synthesizer: LOD monotonicity (C9) -/

lemma findAssoc_isSome_congr :
    ∀ {l1 l2 : List (Nat × Nat)}, l1.map Prod.fst = l2.map Prod.fst →
      ∀ k, (findAssoc l1 k).isSome = (findAssoc l2 k).isSome := by
  intro l1
  induction l1 with
  | nil =>
      intro l2 h k
      cases l2 with
      | nil => rfl
      | cons b u => simp at h
  | cons a t ih =>
      intro l2 h k
      cases l2 with
      | nil => simp at h
      | cons b u =>
          rcases a with ⟨ka, va⟩
          rcases b with ⟨kb, vb⟩
          simp only [List.map_cons, List.cons.injEq] at h
          obtain ⟨hk, ht⟩ := h
          subst hk
          unfold findAssoc
          by_cases hkey : ka = k
          · simp [hkey]
          · simp only [hkey, if_false]
            exact ih ht k

lemma gbcc_step (segLen : FBranchSegment → ℚ) (tiling : ℚ) (n : Nat)
    (st : GeomState) (seg : FBranchSegment) (i : Nat) :
    ((GenerateBranchCylinderConnected segLen tiling n st seg
        i).segmentEndRingIndices.map Prod.fst
      = if lengthSq seg < kindaSmallSq then
          st.segmentEndRingIndices.map Prod.fst
        else st.segmentEndRingIndices.map Prod.fst ++ [i]) ∧
    ((GenerateBranchCylinderConnected segLen tiling n st seg
        i).mesh.vertices.length
      = if lengthSq seg < kindaSmallSq then st.mesh.vertices.length
        else if 0 ≤ seg.parentSegmentIndex ∧
            (findAssoc st.segmentEndRingIndices
              seg.parentSegmentIndex.toNat).isSome = true
          then st.mesh.vertices.length + n
          else st.mesh.vertices.length + 2 * n) := by
  unfold GenerateBranchCylinderConnected
  by_cases hdeg : lengthSq seg < kindaSmallSq
  · rw [if_pos hdeg, if_pos hdeg, if_pos hdeg]
    exact ⟨rfl, rfl⟩
  · rw [if_neg hdeg, if_neg hdeg, if_neg hdeg]
    simp only []
    by_cases hp : 0 ≤ seg.parentSegmentIndex
    · rw [if_pos hp]
      rcases hfind : findAssoc st.segmentEndRingIndices
          seg.parentSegmentIndex.toNat with _ | pe
      · rw [if_neg (by simp [hfind])]
        constructor
        · simp [ConnectRings]
        · show ((GenerateRing (GenerateRing st.mesh seg.startPosition
              seg.direction seg.startRadius n st.currentV).2 seg.endPosition
              seg.direction seg.endRadius n
              (st.currentV + segLen seg * tiling / 100)).2).vertices.length
            = st.mesh.vertices.length + 2 * n
          rw [(generateRing_shape _ _ _ _ _ _).2.1,
            (generateRing_shape _ _ _ _ _ _).2.1]
          omega
      · rw [if_pos (by exact ⟨hp, by simp [hfind]⟩)]
        constructor
        · simp [ConnectRings]
        · show ((GenerateRing st.mesh seg.endPosition seg.direction
              seg.endRadius n
              (st.currentV + segLen seg * tiling / 100)).2).vertices.length
            = st.mesh.vertices.length + n
          rw [(generateRing_shape _ _ _ _ _ _).2.1]
    · rw [if_neg hp, if_neg (by simp [hp])]
      constructor
      · simp [ConnectRings]
      · show ((GenerateRing (GenerateRing st.mesh seg.startPosition
            seg.direction seg.startRadius n st.currentV).2 seg.endPosition
            seg.direction seg.endRadius n
            (st.currentV + segLen seg * tiling / 100)).2).vertices.length
          = st.mesh.vertices.length + 2 * n
        rw [(generateRing_shape _ _ _ _ _ _).2.1,
          (generateRing_shape _ _ _ _ _ _).2.1]
        omega

lemma branchLoop_vert_mono (segLen : FBranchSegment → ℚ) (tiling : ℚ)
    (n1 n2 : Nat) (hn : n1 ≤ n2) :
    ∀ (rest : List FBranchSegment) (i : Nat) (stA stB : GeomState),
      stA.segmentEndRingIndices.map Prod.fst
        = stB.segmentEndRingIndices.map Prod.fst →
      stA.mesh.vertices.length ≤ stB.mesh.vertices.length →
      (branchLoop segLen tiling n1 i rest stA).mesh.vertices.length
        ≤ (branchLoop segLen tiling n2 i rest stB).mesh.vertices.length := by
  intro rest
  induction rest with
  | nil => intro i stA stB hkeys hlen; simpa [branchLoop] using hlen
  | cons seg rest2 ih =>
      intro i stA stB hkeys hlen
      simp only [branchLoop]
      obtain ⟨ka, va⟩ := gbcc_step segLen tiling n1 stA seg i
      obtain ⟨kb, vb⟩ := gbcc_step segLen tiling n2 stB seg i
      apply ih
      · rw [ka, kb]
        by_cases hdeg : lengthSq seg < kindaSmallSq
        · rw [if_pos hdeg, if_pos hdeg, hkeys]
        · rw [if_neg hdeg, if_neg hdeg, hkeys]
      · rw [va, vb]
        by_cases hdeg : lengthSq seg < kindaSmallSq
        · rw [if_pos hdeg, if_pos hdeg]
          exact hlen
        · rw [if_neg hdeg, if_neg hdeg]
          have hsome := findAssoc_isSome_congr hkeys
            seg.parentSegmentIndex.toNat
          by_cases hcase : 0 ≤ seg.parentSegmentIndex ∧
              (findAssoc stA.segmentEndRingIndices
                seg.parentSegmentIndex.toNat).isSome = true
          · rw [if_pos hcase, if_pos ⟨hcase.1, by rw [← hsome]; exact hcase.2⟩]
            omega
          · rw [if_neg hcase, if_neg (by
              intro hc
              exact hcase ⟨hc.1, by rw [hsome]; exact hc.2⟩)]
            omega

/-- Claim C9: for the same segment and leaf input, a LOD spec with more
radial segments never produces a mesh with fewer vertices (the radial
count is clamped to `[3, 32]`, a monotone operation, and every emitted
ring scales linearly with it while leaf quads are unaffected). -/
theorem claim_C9_lod_monotonicity (segLen : FBranchSegment → ℚ)
    (tiling : ℚ) (dls : ℚ × ℚ) (segments : List FBranchSegment)
    (leaves : List FLeafData) (incl : Bool) (n1 n2 : Int) (h : n1 ≤ n2) :
    (GenerateMesh segLen tiling dls segments leaves n1 incl).vertices.length
      ≤ (GenerateMesh segLen tiling dls segments leaves n2
          incl).vertices.length := by
  unfold GenerateMesh GenerateMeshFull
  simp only []
  have hcl : (clampInt n1 3 32).toNat ≤ (clampInt n2 3 32).toNat := by
    unfold clampInt
    split_ifs <;> omega
  have hb := branchLoop_vert_mono segLen tiling _ _ hcl segments 0
    { mesh := emptyMesh, segmentEndRingIndices := [], currentV := 0,
      ringPairs := [] }
    { mesh := emptyMesh, segmentEndRingIndices := [], currentV := 0,
      ringPairs := [] } rfl (le_refl _)
  cases incl with
  | false =>
      simp only [Bool.false_eq_true, if_false]
      exact hb
  | true =>
      simp only [if_true]
      generalize hstA : branchLoop segLen tiling (clampInt n1 3 32).toNat 0
        segments
        { mesh := emptyMesh, segmentEndRingIndices := [], currentV := 0,
          ringPairs := [] } = stA
      generalize hstB : branchLoop segLen tiling (clampInt n2 3 32).toNat 0
        segments
        { mesh := emptyMesh, segmentEndRingIndices := [], currentV := 0,
          ringPairs := [] } = stB
      rw [hstA, hstB] at hb
      obtain ⟨fA1, _, _, _⟩ := leafFold_shape dls leaves
        { stA.mesh with
          branchVertexCount := stA.mesh.vertices.length
          branchTriangleCount := stA.mesh.triangles.length / 3 }
      obtain ⟨fB1, _, _, _⟩ := leafFold_shape dls leaves
        { stB.mesh with
          branchVertexCount := stB.mesh.vertices.length
          branchTriangleCount := stB.mesh.triangles.length / 3 }
      rw [fA1, fB1]
      show stA.mesh.vertices.length + 4 * leaves.length
        ≤ stB.mesh.vertices.length + 4 * leaves.length
      omega

/-- Witness for C9: the two concrete segments and one leaf, comparing 4
against 8 radial segments with leaves included. -/
theorem claim_C9_witness :
    (4 : Int) ≤ 8 ∧
    (GenerateMesh segLenTen 1 (10, 15) [segRoot, segChild] [leafOne] 4
        true).vertices.length
      ≤ (GenerateMesh segLenTen 1 (10, 15) [segRoot, segChild] [leafOne] 8
          true).vertices.length :=
  ⟨by decide,
   claim_C9_lod_monotonicity segLenTen 1 (10, 15) [segRoot, segChild]
     [leafOne] true 4 8 (by decide)⟩

/-! ### Mesh synthesizer: ring connectivity (C8) -/

lemma findAssoc_concat (p : Nat × Nat) (k : Nat) :
    ∀ (l : List (Nat × Nat)),
      findAssoc (l ++ [p]) k
        = match findAssoc l k with
          | some v => some v
          | none => if p.1 = k then some p.2 else none := by
  intro l
  induction l with
  | nil =>
      rcases p with ⟨a, b⟩
      simp [findAssoc]
  | cons q rest ih =>
      rcases q with ⟨a, b⟩
      simp only [List.cons_append]
      unfold findAssoc
      by_cases ha : a = k
      · rw [if_pos ha, if_pos ha]
      · rw [if_neg ha, if_neg ha, ih]

lemma branchLoop_rings (segLen : FBranchSegment → ℚ) (tiling : ℚ) (n : Nat) :
    ∀ (rest : List FBranchSegment) (i : Nat) (st : GeomState),
      st.ringPairs.length = i →
      (∀ k, findAssoc st.segmentEndRingIndices k
          = ((st.ringPairs[k]?).bind id).map Prod.snd) →
      (∀ k, k < i →
        (branchLoop segLen tiling n i rest st).ringPairs[k]?
          = st.ringPairs[k]?) ∧
      (∀ k seg, rest[k]? = some seg → 0 ≤ seg.parentSegmentIndex →
        seg.parentSegmentIndex.toNat < i + k →
        ∀ sj ej sp ep,
          (branchLoop segLen tiling n i rest st).ringPairs[i + k]?
            = some (some (sj, ej)) →
          (branchLoop segLen tiling n i rest
              st).ringPairs[seg.parentSegmentIndex.toNat]?
            = some (some (sp, ep)) →
          sj = ep) := by
  intro rest
  induction rest with
  | nil =>
      intro i st hlen hinv
      refine ⟨fun k hk => rfl, fun k seg hk => ?_⟩
      simp at hk
  | cons seg0 rest2 ih =>
      intro i st hlen hinv
      have eleft : ∀ (x : Option (Nat × Nat)) (k : Nat), k < i →
          (st.ringPairs ++ [x])[k]? = st.ringPairs[k]? := by
        intro x k hk
        exact List.getElem?_append_left (by omega)
      have econcat : ∀ (x : Option (Nat × Nat)),
          (st.ringPairs ++ [x])[i]? = some x := by
        intro x
        rw [← hlen]
        exact List.getElem?_concat_length _ _
      have enone : ∀ (x : Option (Nat × Nat)) (k : Nat), i < k →
          (st.ringPairs ++ [x])[k]? = none := by
        intro x k hk
        refine List.getElem?_eq_none ?_
        simp only [List.length_append, List.length_cons, List.length_nil]
        omega
      have hlen' : (GenerateBranchCylinderConnected segLen tiling n st seg0
          i).ringPairs.length = i + 1 := by
        unfold GenerateBranchCylinderConnected
        split_ifs <;> simp [hlen]
      have hrp' : ∀ (k : Nat), k < i →
          (GenerateBranchCylinderConnected segLen tiling n st seg0
            i).ringPairs[k]? = st.ringPairs[k]? := by
        intro k hk
        unfold GenerateBranchCylinderConnected
        split_ifs <;> (simp only []; exact eleft _ _ hk)
      have hinv' : ∀ k,
          findAssoc (GenerateBranchCylinderConnected segLen tiling n st seg0
            i).segmentEndRingIndices k
          = (((GenerateBranchCylinderConnected segLen tiling n st seg0
              i).ringPairs[k]?).bind id).map Prod.snd := by
        intro k
        unfold GenerateBranchCylinderConnected
        by_cases hdeg : lengthSq seg0 < kindaSmallSq
        · rw [if_pos hdeg]
          simp only []
          rcases Nat.lt_trichotomy k i with hk | hk | hk
          · rw [eleft _ _ hk]
            exact hinv k
          · rw [hk, econcat, hinv i, List.getElem?_eq_none (by omega)]
            rfl
          · rw [enone _ _ hk, hinv k, List.getElem?_eq_none (by omega)]
        · rw [if_neg hdeg]
          simp only []
          rw [findAssoc_concat]
          simp only []
          rcases Nat.lt_trichotomy k i with hk | hk | hk
          · rw [eleft _ _ hk, ← hinv k]
            rcases hfk : findAssoc st.segmentEndRingIndices k with _ | v
            · simp only []
              exact if_neg (by omega)
            · rfl
          · have hfi : findAssoc st.segmentEndRingIndices i = none := by
              rw [hinv i, List.getElem?_eq_none (by omega)]
              rfl
            rw [hk, econcat, hfi]
            simp only [if_true]
            rfl
          · have hfk2 : findAssoc st.segmentEndRingIndices k = none := by
              rw [hinv k, List.getElem?_eq_none (by omega)]
              rfl
            rw [enone _ _ hk, hfk2]
            simp only []
            exact if_neg (by omega)
      obtain ⟨ihpre, ihpar⟩ := ih (i + 1)
        (GenerateBranchCylinderConnected segLen tiling n st seg0 i) hlen'
        hinv'
      simp only [branchLoop]
      constructor
      · intro k hk
        rw [ihpre k (by omega)]
        exact hrp' k hk
      · intro k seg hk hp0 hplt sj ej sp ep hfj hfp
        cases k with
        | zero =>
            have hsg : seg = seg0 := by
              simp only [List.getElem?_cons_zero, Option.some.injEq] at hk
              exact hk.symm
            subst hsg
            have hj2 : (GenerateBranchCylinderConnected segLen tiling n st
                seg i).ringPairs[i]? = some (some (sj, ej)) := by
              rw [← ihpre i (by omega)]
              simpa using hfj
            have hplt2 : seg.parentSegmentIndex.toNat < i := by omega
            have hp2 : st.ringPairs[seg.parentSegmentIndex.toNat]?
                = some (some (sp, ep)) := by
              rw [← hrp' _ hplt2, ← ihpre _ (by omega)]
              exact hfp
            have hfind : findAssoc st.segmentEndRingIndices
                seg.parentSegmentIndex.toNat = some ep := by
              rw [hinv, hp2]
              rfl
            unfold GenerateBranchCylinderConnected at hj2
            by_cases hdeg : lengthSq seg < kindaSmallSq
            · rw [if_pos hdeg] at hj2
              simp only [] at hj2
              rw [econcat] at hj2
              simp at hj2
            · rw [if_neg hdeg] at hj2
              simp only [] at hj2
              rw [econcat] at hj2
              rw [if_pos hp0, hfind] at hj2
              simp only [Option.some.injEq, Prod.mk.injEq] at hj2
              exact hj2.1.symm
        | succ k2 =>
            have hk2 : rest2[k2]? = some seg := by simpa using hk
            have e1 : i + (k2 + 1) = (i + 1) + k2 := by omega
            rw [e1] at hfj
            exact ihpar k2 seg hk2 hp0 (by omega) sj ej sp ep hfj hfp

/-- Claim C8: whenever a segment's parent produced rings (its ghost ring
trace entry is present), the child's recorded start ring index equals the
parent's recorded end ring index — the parents end ring is reused, so the
child's start-ring vertices are literally the same mesh vertices. -/
theorem claim_C8_ring_connectivity (segLen : FBranchSegment → ℚ)
    (tiling : ℚ) (dls : ℚ × ℚ) (segments : List FBranchSegment)
    (leaves : List FLeafData) (rs : Int) (incl : Bool) (j : Nat)
    (seg : FBranchSegment) (sj ej sp ep : Nat)
    (hseg : segments[j]? = some seg)
    (hpar : 0 ≤ seg.parentSegmentIndex)
    (hlt : seg.parentSegmentIndex.toNat < j)
    (hj : (GenerateMeshFull segLen tiling dls segments leaves rs
        incl).2[j]? = some (some (sj, ej)))
    (hp : (GenerateMeshFull segLen tiling dls segments leaves rs
        incl).2[seg.parentSegmentIndex.toNat]? = some (some (sp, ep))) :
    sj = ep := by
  unfold GenerateMeshFull at hj hp
  simp only [] at hj hp
  obtain ⟨_, hpar2⟩ := branchLoop_rings segLen tiling
    (clampInt rs 3 32).toNat segments 0
    { mesh := emptyMesh, segmentEndRingIndices := [], currentV := 0,
      ringPairs := [] } rfl (fun k => rfl)
  exact hpar2 j seg hseg hpar (by omega) sj ej sp ep (by simpa using hj) hp

/-- Witness for C8: with the concrete root and child segments (child's
parent is segment 0), the child's start ring index 4 equals the root's end
ring index 4. -/
theorem claim_C8_witness :
    (GenerateMeshFull segLenTen 1 (10, 15) [segRoot, segChild] [leafOne] 4
        true).2[1]? = some (some (4, 8)) ∧
    (GenerateMeshFull segLenTen 1 (10, 15) [segRoot, segChild] [leafOne] 4
        true).2[0]? = some (some (0, 4)) ∧
    (4 : Nat) = 4 :=
  ⟨by with_unfolding_all decide, by with_unfolding_all decide,
   claim_C8_ring_connectivity segLenTen 1 (10, 15) [segRoot, segChild]
     [leafOne] 4 true 1 segChild 4 8 0 4 rfl (by decide) (by decide)
     (by with_unfolding_all decide) (by with_unfolding_all decide)⟩

end LSys
